import Mathlib

/-!
Verification of the stdio JSON-RPC smoke-test harness.

Shallow embedding of `scripts/mcp_jsonrpc_smoke_test.py`.

Modelling conventions:
* Byte streams are `List Nat` (each element one byte, `< 256` in practice).
  Python bytes literals and decoded ASCII text are handled at the byte level;
  Python `str` operations (`strip`, `lower`, `split`) are modelled on the
  ASCII range, which is the range the protocol headers use.
* Python strings inside JSON values are modelled by their UTF-8 byte
  sequences, so `json.dumps(..., ensure_ascii=False).encode("utf-8")`
  becomes a direct byte-producing serializer.
* JSON numbers are modelled as integers (`Int`); the harness only ever
  builds and receives integer-valued numbers.  Float syntax makes the
  modelled parser fail instead of producing a float value.
* Real time (deadlines, `select` timeouts) is modelled by a fuel
  parameter: one unit of fuel is one iteration of a polling loop, and the
  deadline check of the source is the fuel check of the model.
* Python `None` is identified with the JSON null value (in the source the
  absent-result `return None` of `read_lsp_message` and a decoded `null`
  body are the same value), so the decoder result `.ok Json.null` is the
  "absent" outcome of the spec.
-/

/-- Bytes of an ASCII string literal. -/
def ascii (s : String) : List Nat := s.data.map Char.toNat

/-- ASCII decimal digit test (`0`..`9`). -/
def isDigitB (c : Nat) : Bool := decide (48 ≤ c) && decide (c ≤ 57)

/-- Bytes that Python `str.strip()` removes, restricted to the ASCII
range: `\t \n \v \f \r \x1c \x1d \x1e \x1f` and the space. -/
def isPyWs (c : Nat) : Bool :=
  decide (9 ≤ c) && decide (c ≤ 13) || decide (28 ≤ c) && decide (c ≤ 32)

/-- Python `str.strip()` on ASCII bytes. -/
def pyStrip (l : List Nat) : List Nat :=
  ((l.dropWhile isPyWs).reverse.dropWhile isPyWs).reverse

/-- Python `str.lower()` on an ASCII byte. -/
def lowerByte (c : Nat) : Nat := if 65 ≤ c ∧ c ≤ 90 then c + 32 else c

/-- Python `str.lower()` on ASCII bytes. -/
def pyLower (l : List Nat) : List Nat := l.map lowerByte

/-- Little-endian base-10 digits, with explicit fuel so that the kernel
can evaluate it (`Nat.digits` is well-founded and does not reduce). -/
def natDigitsAux : Nat → Nat → List Nat
  | 0, _ => []
  | _ + 1, 0 => []
  | fuel + 1, n + 1 => ((n + 1) % 10) :: natDigitsAux fuel ((n + 1) / 10)

/-- Decimal digits of a natural number, most significant first
(the bytes of the Python formatted decimal string of `n`). -/
def natDecimal (n : Nat) : List Nat :=
  if n = 0 then [48] else ((natDigitsAux n n).map (fun d => d + 48)).reverse

theorem natDigitsAux_eq (fuel : Nat) : ∀ n, n ≤ fuel → natDigitsAux fuel n = Nat.digits 10 n := by
  induction fuel with
  | zero =>
    intro n h
    interval_cases n
    simp [natDigitsAux]
  | succ fuel ih =>
    intro n h
    match n with
    | 0 => simp [natDigitsAux]
    | n + 1 =>
      rw [natDigitsAux, ih ((n + 1) / 10) (by omega),
        @Nat.digits_def' 10 (by norm_num) (n + 1) (Nat.succ_pos n)]

/-- Agreement of `natDecimal` with the `Nat.digits`-based decimal rendering. -/
theorem natDecimal_eq (n : Nat) :
    natDecimal n =
      if n = 0 then [48] else ((Nat.digits 10 n).map (fun d => d + 48)).reverse := by
  unfold natDecimal
  rw [natDigitsAux_eq n n le_rfl]

/-- Numeric value of a most-significant-first ASCII digit list. -/
def decVal (l : List Nat) : Nat := l.foldl (fun a c => a * 10 + (c - 48)) 0

/-- Validity of the digit tail of a Python `int()` literal after its first
digit: digits with single underscores allowed between digits. -/
def digitsTail : List Nat → Bool
  | [] => true
  | c :: rest =>
    if c = 95 then
      match rest with
      | [] => false
      | c2 :: rest2 => isDigitB c2 && digitsTail rest2
    else isDigitB c && digitsTail rest

/-- Python `int()` digit-run parsing (no sign): nonempty, starts with a
digit, underscores only between digits. -/
def pyIntDigits (l : List Nat) : Option Nat :=
  match l with
  | [] => none
  | c :: rest =>
    if isDigitB c && digitsTail rest then
      some (decVal ((c :: rest).filter (fun x => x ≠ 95)))
    else none

/-- Python `int()` on already-stripped ASCII text: optional sign then
digits; anything else raises `ValueError`, modelled as `none`. -/
def pyInt (l : List Nat) : Option Int :=
  match l with
  | [] => none
  | c :: rest =>
    if c = 43 then (pyIntDigits rest).map (fun n => (n : Int))
    else if c = 45 then (pyIntDigits rest).map (fun n => -(n : Int))
    else (pyIntDigits (c :: rest)).map (fun n => (n : Int))

/-- JSON values as Python `json` module produces them, with strings as
UTF-8 byte sequences and integer numbers only. -/
inductive Json where
  | null : Json
  | bool : Bool → Json
  | num : Int → Json
  | str : List Nat → Json
  | arr : List Json → Json
  | obj : List (List Nat × Json) → Json

mutual
/-- Boolean equality on `Json`. -/
def jbeq : Json → Json → Bool
  | .null, .null => true
  | .bool a, .bool b => a == b
  | .num a, .num b => a == b
  | .str a, .str b => a == b
  | .arr a, .arr b => jbeqList a b
  | .obj a, .obj b => jbeqObj a b
  | _, _ => false
/-- Boolean equality on JSON arrays. -/
def jbeqList : List Json → List Json → Bool
  | [], [] => true
  | x :: xs, y :: ys => jbeq x y && jbeqList xs ys
  | _, _ => false
/-- Boolean equality on JSON object member lists. -/
def jbeqObj : List (List Nat × Json) → List (List Nat × Json) → Bool
  | [], [] => true
  | (k, v) :: xs, (k2, v2) :: ys => k == k2 && jbeq v v2 && jbeqObj xs ys
  | _, _ => false
end

mutual
theorem jbeq_iff : ∀ a b : Json, jbeq a b = true ↔ a = b
  | .null, b => by cases b <;> simp [jbeq]
  | .bool a, b => by cases b <;> simp [jbeq]
  | .num a, b => by cases b <;> simp [jbeq]
  | .str a, b => by cases b <;> simp [jbeq]
  | .arr a, b => by
      cases b <;> simp [jbeq]
      exact jbeqList_iff a _
  | .obj a, b => by
      cases b <;> simp [jbeq]
      exact jbeqObj_iff a _
theorem jbeqList_iff : ∀ a b : List Json, jbeqList a b = true ↔ a = b
  | [], b => by cases b <;> simp [jbeqList]
  | x :: xs, b => by
      cases b with
      | nil => simp [jbeqList]
      | cons y ys =>
        simp [jbeqList, Bool.and_eq_true, jbeq_iff x y, jbeqList_iff xs ys]
theorem jbeqObj_iff : ∀ a b : List (List Nat × Json), jbeqObj a b = true ↔ a = b
  | [], b => by cases b <;> simp [jbeqObj]
  | (k, v) :: xs, b => by
      cases b with
      | nil => simp [jbeqObj]
      | cons y ys =>
        obtain ⟨k2, v2⟩ := y
        simp [jbeqObj, Bool.and_eq_true, jbeq_iff v v2, jbeqObj_iff xs ys]
end

instance : DecidableEq Json := fun a b => decidable_of_iff _ (jbeq_iff a b)

example : pyInt (ascii "-57") = some (-57) := by decide
example : pyInt (ascii "1_0") = some 10 := by decide
example : pyInt (ascii "abc") = none := by decide
example : pyInt (ascii "1_") = none := by decide
example : pyStrip (ascii "  ab c\r\n") = ascii "ab c" := by decide
example : pyLower (ascii "Content-Length") = ascii "content-length" := by decide

/-- A decimal rendering is never empty. -/
theorem natDecimal_ne_nil (n : Nat) : natDecimal n ≠ [] := by
  rw [natDecimal_eq]
  split
  · simp
  · simp [Nat.digits_ne_nil_iff_ne_zero, *]

/-- Every byte of a decimal rendering is an ASCII digit. -/
theorem natDecimal_mem (n : Nat) : ∀ c ∈ natDecimal n, 48 ≤ c ∧ c ≤ 57 := by
  intro c hc
  rw [natDecimal_eq] at hc
  split at hc
  · simp at hc; omega
  · simp only [List.mem_reverse, List.mem_map] at hc
    obtain ⟨d, hd, rfl⟩ := hc
    have := Nat.digits_lt_base (by norm_num) hd
    omega

theorem foldl_digits_reverse (L : List Nat) (A : Nat) :
    List.foldl (fun a d => a * 10 + d) A L.reverse =
      Nat.ofDigits 10 L + A * 10 ^ L.length := by
  induction L generalizing A with
  | nil => simp
  | cons d L ih =>
    simp only [List.reverse_cons, List.foldl_append, List.foldl_cons, List.foldl_nil, ih,
      Nat.ofDigits_cons, List.length_cons, pow_succ]
    ring

/-- The decimal rendering parses back to its value. -/
theorem decVal_natDecimal (n : Nat) : decVal (natDecimal n) = n := by
  rw [natDecimal_eq]
  unfold decVal
  split
  · simp [List.foldl]; omega
  · rw [← List.map_reverse, List.foldl_map]
    simp only [Nat.add_sub_cancel]
    rw [foldl_digits_reverse]
    simp [Nat.ofDigits_digits]

theorem digitsTail_all (l : List Nat) (h : ∀ c ∈ l, 48 ≤ c ∧ c ≤ 57) :
    digitsTail l = true := by
  induction l with
  | nil => rfl
  | cons c rest ih =>
    have hc := h c (by simp)
    unfold digitsTail
    have h95 : ¬ c = 95 := by omega
    simp only [h95, if_false]
    simp [isDigitB, hc.1, hc.2, ih (fun x hx => h x (by simp [hx]))]

theorem pyIntDigits_natDecimal (n : Nat) : pyIntDigits (natDecimal n) = some n := by
  cases h : natDecimal n with
  | nil => exact absurd h (natDecimal_ne_nil n)
  | cons c cs =>
    have hmem : ∀ x ∈ c :: cs, 48 ≤ x ∧ x ≤ 57 := h ▸ natDecimal_mem n
    have hc := hmem c (by simp)
    have htail : digitsTail cs = true :=
      digitsTail_all cs (fun x hx => hmem x (by simp [hx]))
    unfold pyIntDigits
    have hfilter : (c :: cs).filter (fun x => x ≠ 95) = c :: cs := by
      apply List.filter_eq_self.mpr
      intro a ha
      have := hmem a ha
      simp; omega
    simp only [isDigitB, htail, hfilter]
    have : (decide (48 ≤ c) && decide (c ≤ 57)) = true := by
      simp [hc.1, hc.2]
    simp only [this, Bool.true_and, if_true]
    rw [← h, decVal_natDecimal]

theorem pyInt_natDecimal (n : Nat) : pyInt (natDecimal n) = some (n : Int) := by
  cases h : natDecimal n with
  | nil => exact absurd h (natDecimal_ne_nil n)
  | cons c cs =>
    have hc := (h ▸ natDecimal_mem n) c (by simp)
    have h43 : ¬ c = 43 := by omega
    have h45 : ¬ c = 45 := by omega
    simp only [pyInt, h43, h45, if_false]
    rw [← h, pyIntDigits_natDecimal]
    rfl

/-- Bytes of the decimal rendering of an integer (Python `str(int)` and
the form `json.dumps` emits for integers). -/
def intRepr (i : Int) : List Nat :=
  if i < 0 then 45 :: natDecimal i.natAbs else natDecimal i.natAbs

/-- Python `int()` parses back the decimal rendering of any integer. -/
theorem pyInt_intRepr (i : Int) : pyInt (intRepr i) = some i := by
  unfold intRepr
  split
  · rename_i hneg
    show pyInt (45 :: natDecimal i.natAbs) = some i
    simp [pyInt, pyIntDigits_natDecimal, Int.ofNat_natAbs_of_nonpos hneg.le]
  · rw [pyInt_natDecimal]
    congr 1
    omega

/-- Lowercase hexadecimal digit byte. -/
def hexDigit (d : Nat) : Nat := if d < 10 then 48 + d else 87 + d

/-- Escaping of one string byte, as `json.dumps(..., ensure_ascii=False)`
performs it: quote and backslash escaped, control bytes below 0x20 use the
short escapes or a `\u00XX` escape, everything else passes through. -/
def escapeByte (c : Nat) : List Nat :=
  if c = 34 then [92, 34]
  else if c = 92 then [92, 92]
  else if c = 8 then [92, 98]
  else if c = 9 then [92, 116]
  else if c = 10 then [92, 110]
  else if c = 12 then [92, 102]
  else if c = 13 then [92, 114]
  else if c < 32 then [92, 117, 48, 48, hexDigit (c / 16), hexDigit (c % 16)]
  else [c]

/-- Escaped body of a JSON string literal. -/
def escBytes (s : List Nat) : List Nat := (s.map escapeByte).flatten

/-- A JSON string literal: quote, escaped bytes, quote. -/
def strLit (s : List Nat) : List Nat := 34 :: escBytes s ++ [34]

mutual
/-- Model of `json.dumps(obj, separators=(",", ":"), ensure_ascii=False)` as UTF-8
bytes: compact separators, no added whitespace. -/
def dumps : Json → List Nat
  | .null => [110, 117, 108, 108]
  | .bool true => [116, 114, 117, 101]
  | .bool false => [102, 97, 108, 115, 101]
  | .num i => intRepr i
  | .str s => strLit s
  | .arr xs => 91 :: dumpsElems xs ++ [93]
  | .obj kvs => 123 :: dumpsMems kvs ++ [125]
/-- Comma-joined serializations of array elements. -/
def dumpsElems : List Json → List Nat
  | [] => []
  | [x] => dumps x
  | x :: xs => dumps x ++ 44 :: dumpsElems xs
/-- Comma-joined serializations of object members (`"key":value`). -/
def dumpsMems : List (List Nat × Json) → List Nat
  | [] => []
  | [kv] => strLit kv.1 ++ 58 :: dumps kv.2
  | kv :: kvs => strLit kv.1 ++ 58 :: dumps kv.2 ++ 44 :: dumpsMems kvs
end

mutual
/-- Structural size of a JSON value, used as parser fuel. -/
def jsize : Json → Nat
  | .null => 1
  | .bool _ => 1
  | .num _ => 1
  | .str _ => 1
  | .arr xs => 1 + lsize xs
  | .obj kvs => 1 + msize kvs
/-- Structural size of an array element list. -/
def lsize : List Json → Nat
  | [] => 0
  | x :: xs => 1 + jsize x + lsize xs
/-- Structural size of an object member list. -/
def msize : List (List Nat × Json) → Nat
  | [] => 0
  | kv :: kvs => 1 + jsize kv.2 + msize kvs
end

mutual
/-- Well-formedness of a JSON value as a Python object: every object has
distinct keys (Python dictionaries cannot hold duplicates). -/
def jwf : Json → Bool
  | .null => true
  | .bool _ => true
  | .num _ => true
  | .str _ => true
  | .arr xs => lwf xs
  | .obj kvs => decide (kvs.map Prod.fst).Nodup && mwf kvs
/-- Well-formedness of every element of an array. -/
def lwf : List Json → Bool
  | [] => true
  | x :: xs => jwf x && lwf xs
/-- Well-formedness of every value of an object. -/
def mwf : List (List Nat × Json) → Bool
  | [] => true
  | kv :: kvs => jwf kv.2 && mwf kvs
end

example : dumps (.obj [(ascii "id", .num 1), (ascii "ok", .bool true)]) =
    ascii "\x7b\"id\":1,\"ok\":true\x7d" := by decide
example : dumps (.arr [.null, .str (ascii "a\"b"), .num (-2)]) =
    ascii "[null,\"a\\\"b\",-2]" := by decide
example : jwf (.obj [(ascii "a", .null), (ascii "a", .null)]) = false := by decide

/-- Whitespace skipped between JSON tokens (`json.decoder` skips
space, tab, newline, carriage return). -/
def isJsonWs (c : Nat) : Bool := c = 32 || c = 9 || c = 10 || c = 13

/-- Skip inter-token whitespace. -/
def skipWs (l : List Nat) : List Nat := l.dropWhile isJsonWs

/-- Value of one hexadecimal digit byte. -/
def hexVal (c : Nat) : Option Nat :=
  if 48 ≤ c ∧ c ≤ 57 then some (c - 48)
  else if 97 ≤ c ∧ c ≤ 102 then some (c - 87)
  else if 65 ≤ c ∧ c ≤ 70 then some (c - 55)
  else none

/-- UTF-8 encoding of one code point (used for `\uXXXX` escapes). -/
def utf8Enc (p : Nat) : List Nat :=
  if p < 128 then [p]
  else if p < 2048 then [192 + p / 64, 128 + p % 64]
  else [224 + p / 4096, 128 + (p / 64) % 64, 128 + p % 64]

/-- Unescaped byte of a single-character escape sequence. -/
def escUn (e : Nat) : Option Nat :=
  if e = 34 then some 34
  else if e = 92 then some 92
  else if e = 47 then some 47
  else if e = 98 then some 8
  else if e = 102 then some 12
  else if e = 110 then some 10
  else if e = 114 then some 13
  else if e = 116 then some 9
  else none

/-- String-literal body scan after the opening quote: bytes up to the
closing quote, with escapes decoded; raw control bytes are rejected as
`json.loads` (strict mode) rejects them.  A backslash at end-of-input or
a `\u` with fewer than four following bytes is an error. -/
def parseStrAux : List Nat → Option (List Nat × List Nat)
  | [] => none
  | 92 :: 117 :: h1 :: h2 :: h3 :: h4 :: rest3 =>
    match hexVal h1, hexVal h2, hexVal h3, hexVal h4 with
    | some a, some b, some c2, some d =>
      (parseStrAux rest3).map
        (fun r => (utf8Enc (((a * 16 + b) * 16 + c2) * 16 + d) ++ r.1, r.2))
    | _, _, _, _ => none
  | 92 :: e :: rest2 =>
    if e = 117 then none
    else
      match escUn e with
      | some u => (parseStrAux rest2).map (fun r => (u :: r.1, r.2))
      | none => none
  | c :: rest =>
    if c = 34 then some ([], rest)
    else if c = 92 then none
    else if c < 32 then none
    else (parseStrAux rest).map (fun r => (c :: r.1, r.2))

/-- Greedy run of ASCII digits. -/
def takeDigits : List Nat → List Nat × List Nat
  | [] => ([], [])
  | c :: rest =>
    if isDigitB c then
      let p := takeDigits rest
      (c :: p.1, p.2)
    else ([], c :: rest)

/-- Integer part of a JSON number: `0` or a nonzero digit followed by a
greedy digit run. -/
def parseIntPart : List Nat → Option (Nat × List Nat)
  | [] => none
  | c :: rest =>
    if c = 48 then some (0, rest)
    else if isDigitB c then
      let p := takeDigits rest
      some (decVal (c :: p.1), p.2)
    else none

/-- Whether the remaining input continues a number as a float
(fraction or exponent).  Float values are outside the model: the harness
only exchanges integer identifiers, so the modelled parser fails where
`json.loads` would produce a float. -/
def floatCont (r : List Nat) : Bool :=
  match r with
  | 46 :: _ => true
  | 101 :: _ => true
  | 69 :: _ => true
  | _ => false

/-- JSON number token (integer values only). -/
def parseNum (cs : List Nat) : Option (Json × List Nat) :=
  match cs with
  | 45 :: rest =>
    match parseIntPart rest with
    | some (n, r) => if floatCont r then none else some (.num (-(n : Int)), r)
    | none => none
  | _ =>
    match parseIntPart cs with
    | some (n, r) => if floatCont r then none else some (.num ((n : Int)), r)
    | none => none

mutual
/-- One JSON value, recursive-descent with fuel (every recursive call
consumes one unit; `pyLoads` supplies enough for any input it is given). -/
def parseVal : Nat → List Nat → Option (Json × List Nat)
  | 0, _ => none
  | fuel + 1, cs =>
    match skipWs cs with
    | [] => none
    | c :: rest =>
      if c = 110 then
        match rest with
        | 117 :: 108 :: 108 :: r => some (.null, r)
        | _ => none
      else if c = 116 then
        match rest with
        | 114 :: 117 :: 101 :: r => some (.bool true, r)
        | _ => none
      else if c = 102 then
        match rest with
        | 97 :: 108 :: 115 :: 101 :: r => some (.bool false, r)
        | _ => none
      else if c = 34 then
        match parseStrAux rest with
        | some (s, r) => some (.str s, r)
        | none => none
      else if c = 91 then
        match skipWs rest with
        | 93 :: r => some (.arr [], r)
        | r2 =>
          match parseElems fuel r2 with
          | some (xs, r) => some (.arr xs, r)
          | none => none
      else if c = 123 then
        match skipWs rest with
        | 125 :: r => some (.obj [], r)
        | r2 =>
          match parseMembers fuel r2 with
          | some (kvs, r) => some (.obj kvs, r)
          | none => none
      else if c = 45 || isDigitB c then parseNum (c :: rest)
      else none
/-- Comma-separated array elements up to the closing bracket. -/
def parseElems : Nat → List Nat → Option (List Json × List Nat)
  | 0, _ => none
  | fuel + 1, cs =>
    match parseVal fuel cs with
    | some (v, r) =>
      match skipWs r with
      | 44 :: r2 =>
        match parseElems fuel r2 with
        | some (vs, r3) => some (v :: vs, r3)
        | none => none
      | 93 :: r2 => some ([v], r2)
      | _ => none
    | none => none
/-- Comma-separated object members up to the closing brace. -/
def parseMembers : Nat → List Nat → Option (List (List Nat × Json) × List Nat)
  | 0, _ => none
  | fuel + 1, cs =>
    match skipWs cs with
    | 34 :: rest =>
      match parseStrAux rest with
      | some (k, r) =>
        match skipWs r with
        | 58 :: r2 =>
          match parseVal fuel r2 with
          | some (v, r3) =>
            match skipWs r3 with
            | 44 :: r4 =>
              match parseMembers fuel r4 with
              | some (kvs, r5) => some ((k, v) :: kvs, r5)
              | none => none
            | 125 :: r4 => some ([(k, v)], r4)
            | _ => none
          | none => none
        | _ => none
      | none => none
    | _ => none
end

/-- Model of `json.loads` on a byte string: one JSON value with optional
surrounding whitespace, nothing else; errors are `none`. -/
def pyLoads (body : List Nat) : Option Json :=
  match parseVal (2 * body.length + 2) body with
  | some (j, rest) => if skipWs rest = [] then some j else none
  | none => none

example : pyLoads (ascii "\x7b\"id\": 4, \"result\": [1, -2]\x7d") =
    some (.obj [(ascii "id", .num 4), (ascii "result", .arr [.num 1, .num (-2)])]) := by decide
example : pyLoads (ascii "\"a\\u0009b\"") = some (.str (ascii "a\tb")) := by decide
example : pyLoads (ascii "\x7b") = none := by decide
example : pyLoads (ascii "x") = none := by decide
example : pyLoads (ascii "01") = none := by decide
example : pyLoads (ascii "null") = some .null := by decide


theorem hexVal_hexDigit (d : Nat) (h : d < 16) : hexVal (hexDigit d) = some d := by
  unfold hexDigit
  by_cases hd : d < 10
  · rw [if_pos hd]
    unfold hexVal
    rw [if_pos (by omega)]
    congr 1
    omega
  · rw [if_neg hd]
    unfold hexVal
    rw [if_neg (by omega), if_pos (by omega)]
    congr 1
    omega

/-- Escaped string bodies scan back to the original bytes. -/
theorem parseStrAux_escBytes (s : List Nat) :
    ∀ rest, parseStrAux (escBytes s ++ 34 :: rest) = some (s, rest) := by
  induction s with
  | nil => intro rest; simp [escBytes, parseStrAux]
  | cons c s ih =>
    intro rest
    show parseStrAux ((escapeByte c ++ escBytes s) ++ 34 :: rest) = some (c :: s, rest)
    rw [List.append_assoc]
    unfold escapeByte
    split_ifs with h1 h2 h3 h4 h5 h6 h7 h8
    · subst h1; simp [parseStrAux, escUn, ih rest]
    · subst h2; simp [parseStrAux, escUn, ih rest]
    · subst h3; simp [parseStrAux, escUn, ih rest]
    · subst h4; simp [parseStrAux, escUn, ih rest]
    · subst h5; simp [parseStrAux, escUn, ih rest]
    · subst h6; simp [parseStrAux, escUn, ih rest]
    · subst h7; simp [parseStrAux, escUn, ih rest]
    · show parseStrAux
        (92 :: 117 :: 48 :: 48 :: hexDigit (c / 16) :: hexDigit (c % 16) ::
          (escBytes s ++ 34 :: rest)) = some (c :: s, rest)
      have hd1 : hexVal (hexDigit (c / 16)) = some (c / 16) := hexVal_hexDigit _ (by omega)
      have hd2 : hexVal (hexDigit (c % 16)) = some (c % 16) := hexVal_hexDigit _ (by omega)
      have h48 : hexVal 48 = some 0 := by decide
      simp only [parseStrAux, h48, hd1, hd2, ih rest, Option.map_some]
      rw [show ((0 * 16 + 0) * 16 + c / 16) * 16 + c % 16 = c by omega]
      rw [show utf8Enc c = [c] by unfold utf8Enc; rw [if_pos (by omega)]]
      rfl
    · simp [parseStrAux, h1, h2, h8, ih rest]

/-- The byte after a serialized value never extends a number token. -/
def sepOk (r : List Nat) : Bool :=
  match r with
  | [] => true
  | c :: _ => !isDigitB c && decide (c ≠ 46) && decide (c ≠ 101) && decide (c ≠ 69)

theorem takeDigits_append (A B : List Nat) (hA : ∀ c ∈ A, isDigitB c = true)
    (hB : ∀ c cs, B = c :: cs → isDigitB c = false) :
    takeDigits (A ++ B) = (A, B) := by
  induction A with
  | nil =>
    cases B with
    | nil => rfl
    | cons c cs => simp [takeDigits, hB c cs rfl]
  | cons a A ih =>
    have ha := hA a (by simp)
    simp only [List.cons_append, takeDigits, ha, if_true, List.append_eq]
    rw [ih (fun c hc => hA c (by simp [hc]))]

theorem natDecimal_not_ws (n : Nat) : ∀ c ∈ natDecimal n, isJsonWs c = false := by
  intro c hc
  have := natDecimal_mem n c hc
  simp [isJsonWs]
  omega

/-- Parsing a serialized integer, when the next byte cannot extend the
number token. -/
theorem parseNum_intRepr (i : Int) (rest : List Nat) (hsep : sepOk rest = true) :
    parseNum (intRepr i ++ rest) = some (.num i, rest) := by
  have hrest : ∀ c cs, rest = c :: cs → isDigitB c = false := by
    intro c cs h
    subst h
    unfold sepOk at hsep
    rw [Bool.and_eq_true, Bool.and_eq_true, Bool.and_eq_true] at hsep
    obtain ⟨⟨⟨hd, h46⟩, h101⟩, h69⟩ := hsep
    simpa using hd
  have hfloat : floatCont rest = false := by
    cases rest with
    | nil => rfl
    | cons c cs =>
      unfold sepOk at hsep
      rw [Bool.and_eq_true, Bool.and_eq_true, Bool.and_eq_true] at hsep
      obtain ⟨⟨⟨hd, h46⟩, h101⟩, h69⟩ := hsep
      rw [decide_eq_true_iff] at h46 h101 h69
      unfold floatCont
      split <;> simp_all
  have hIntPart : ∀ n : Nat, parseIntPart (natDecimal n ++ rest) = some (n, rest) := by
    intro n
    cases hnd : natDecimal n with
    | nil => exact absurd hnd (natDecimal_ne_nil n)
    | cons c cs =>
      have hmem : ∀ x ∈ c :: cs, 48 ≤ x ∧ x ≤ 57 := hnd ▸ natDecimal_mem n
      have hc := hmem c (by simp)
      by_cases hzero : n = 0
      · subst hzero
        have h0 : natDecimal 0 = [48] := rfl
        rw [h0] at hnd
        cases hnd
        cases rest with
        | nil => rfl
        | cons r rs => simp [parseIntPart]
      · have hispos : c ≠ 48 := by
          rw [natDecimal_eq, if_neg hzero] at hnd
          have hlast0 : (Nat.digits 10 n).getLast (by
            simp [Nat.digits_ne_nil_iff_ne_zero, hzero]) ≠ 0 :=
            Nat.getLast_digit_ne_zero 10 hzero
          intro hc48
          subst hc48
          have hsome : ((Nat.digits 10 n).map (fun d => d + 48)).getLast? = some 48 := by
            rw [← List.head?_reverse, hnd]
            rfl
          rw [List.getLast?_map] at hsome
          have hlast := List.getLast?_eq_getLast (Nat.digits 10 n) (by
            simp [Nat.digits_ne_nil_iff_ne_zero, hzero])
          rw [hlast] at hsome
          simp at hsome
          omega
        simp only [List.cons_append, parseIntPart, hispos, if_false]
        have hdig : isDigitB c = true := by simp [isDigitB]; omega
        rw [if_pos hdig]
        rw [takeDigits_append cs rest
          (fun x hx => by have := hmem x (by simp [hx]); simp [isDigitB]; omega) hrest]
        have hval : decVal (c :: cs) = n := by rw [← hnd, decVal_natDecimal]
        simp [hval]
  unfold intRepr
  split
  · rename_i hneg
    show parseNum (45 :: (natDecimal i.natAbs ++ rest)) = some (.num i, rest)
    simp only [parseNum, hIntPart i.natAbs, hfloat, Bool.false_eq_true, if_false]
    rw [Int.ofNat_natAbs_of_nonpos hneg.le, neg_neg]
  · rename_i hpos
    have hhead : ∃ c cs, natDecimal i.natAbs ++ rest = c :: cs ∧ ¬ c = 45 := by
      cases hnd : natDecimal i.natAbs with
      | nil => exact absurd hnd (natDecimal_ne_nil _)
      | cons c cs =>
        have := (hnd ▸ natDecimal_mem i.natAbs) c (by simp)
        exact ⟨c, cs ++ rest, by simp, by omega⟩
    obtain ⟨c, cs, heq, hne⟩ := hhead
    rw [heq]
    have h2 : parseIntPart (c :: cs) = some (i.natAbs, rest) := heq ▸ hIntPart i.natAbs
    unfold parseNum
    split
    · rename_i heq2
      injection heq2 with hh tt
      exact absurd hh hne
    · rw [h2]
      simp only [hfloat, Bool.false_eq_true, if_false]
      rw [Int.natAbs_of_nonneg (by omega)]

theorem skipWs_cons (c : Nat) (l : List Nat) (h : isJsonWs c = false) :
    skipWs (c :: l) = c :: l := by
  simp [skipWs, List.dropWhile_cons, h]

theorem jsize_pos (m : Json) : 1 ≤ jsize m := by
  cases m <;> simp [jsize]

theorem lsize_pos (xs : List Json) (h : xs ≠ []) : 1 ≤ lsize xs := by
  cases xs with
  | nil => exact absurd rfl h
  | cons x xs => simp [lsize]; omega

theorem msize_pos (kvs : List (List Nat × Json)) (h : kvs ≠ []) : 1 ≤ msize kvs := by
  cases kvs with
  | nil => exact absurd rfl h
  | cons kv kvs => simp [msize]; omega

/-- First byte of the decimal rendering of an integer. -/
theorem intRepr_head (i : Int) :
    ∃ c cs, intRepr i = c :: cs ∧ (48 ≤ c ∧ c ≤ 57 ∨ c = 45) := by
  unfold intRepr
  split
  · exact ⟨45, natDecimal i.natAbs, rfl, Or.inr rfl⟩
  · cases hnd : natDecimal i.natAbs with
    | nil => exact absurd hnd (natDecimal_ne_nil _)
    | cons c cs =>
      exact ⟨c, cs, rfl, Or.inl ((hnd ▸ natDecimal_mem i.natAbs) c (by simp))⟩

/-- First byte of any serialized value: never whitespace and never a
closing bracket. -/
theorem dumps_head (m : Json) :
    ∃ c cs, dumps m = c :: cs ∧ isJsonWs c = false ∧ c ≠ 93 := by
  cases m with
  | null => exact ⟨110, _, rfl, by decide, by decide⟩
  | bool b => cases b with
    | true => exact ⟨116, _, rfl, by decide, by decide⟩
    | false => exact ⟨102, _, rfl, by decide, by decide⟩
  | num i =>
    obtain ⟨c, cs, hic, hprop⟩ := intRepr_head i
    refine ⟨c, cs, hic, ?_, ?_⟩
    · rcases hprop with ⟨h1, h2⟩ | h1 <;> (simp [isJsonWs]; omega)
    · rcases hprop with ⟨h1, h2⟩ | h1 <;> omega
  | str s => exact ⟨34, _, rfl, by decide, by decide⟩
  | arr xs => exact ⟨91, _, rfl, by decide, by decide⟩
  | obj kvs => exact ⟨123, _, rfl, by decide, by decide⟩

/-- A number-headed input makes `parseVal` defer to the number token
parser. -/
theorem parseVal_num_step (fuel : Nat) (c : Nat) (cs : List Nat)
    (h : 48 ≤ c ∧ c ≤ 57 ∨ c = 45) :
    parseVal (fuel + 1) (c :: cs) = parseNum (c :: cs) := by
  have hws : isJsonWs c = false := by
    rcases h with ⟨h1, h2⟩ | h1 <;> (simp [isJsonWs]; omega)
  have h110 : ¬ c = 110 := by rcases h with ⟨h1, h2⟩ | h1 <;> omega
  have h116 : ¬ c = 116 := by rcases h with ⟨h1, h2⟩ | h1 <;> omega
  have h102 : ¬ c = 102 := by rcases h with ⟨h1, h2⟩ | h1 <;> omega
  have h34 : ¬ c = 34 := by rcases h with ⟨h1, h2⟩ | h1 <;> omega
  have h91 : ¬ c = 91 := by rcases h with ⟨h1, h2⟩ | h1 <;> omega
  have h123 : ¬ c = 123 := by rcases h with ⟨h1, h2⟩ | h1 <;> omega
  have hnum : (decide (c = 45) || isDigitB c) = true := by
    rcases h with ⟨h1, h2⟩ | h1 <;> simp [isDigitB] <;> omega
  simp only [parseVal, skipWs_cons c cs hws, h110, h116, h102, h34, h91, h123,
    if_false, hnum, if_true]

/-- Round trip of the JSON layer: parsing a serialized value recovers the
value, leaving any non-number-extending remainder untouched. -/
theorem parser_ok : ∀ fuel : Nat,
    (∀ m rest, jsize m ≤ fuel → sepOk rest = true →
      parseVal fuel (dumps m ++ rest) = some (m, rest)) ∧
    (∀ xs rest, xs ≠ [] → lsize xs ≤ fuel →
      parseElems fuel (dumpsElems xs ++ 93 :: rest) = some (xs, rest)) ∧
    (∀ kvs rest, kvs ≠ [] → msize kvs ≤ fuel →
      parseMembers fuel (dumpsMems kvs ++ 125 :: rest) = some (kvs, rest)) := by
  intro fuel
  induction fuel with
  | zero =>
    refine ⟨?_, ?_, ?_⟩
    · intro m rest hsz _
      exact absurd hsz (by have := jsize_pos m; omega)
    · intro xs rest hne hsz
      exact absurd hsz (by have := lsize_pos xs hne; omega)
    · intro kvs rest hne hsz
      exact absurd hsz (by have := msize_pos kvs hne; omega)
  | succ fuel ih =>
    obtain ⟨ihA, ihB, ihC⟩ := ih
    refine ⟨?_, ?_, ?_⟩
    · intro m rest hsz hsep
      cases m with
      | null => rfl
      | bool b => cases b <;> rfl
      | num i =>
        obtain ⟨c, cs, hic, hprop⟩ := intRepr_head i
        show parseVal (fuel + 1) (intRepr i ++ rest) = some (.num i, rest)
        have hstep : parseVal (fuel + 1) (intRepr i ++ rest) = parseNum (intRepr i ++ rest) := by
          rw [hic, List.cons_append]
          exact parseVal_num_step fuel c (cs ++ rest) hprop
        rw [hstep, parseNum_intRepr i rest hsep]
      | str s =>
        show parseVal (fuel + 1) ((34 :: escBytes s ++ [34]) ++ rest) = some (.str s, rest)
        simp only [List.cons_append, List.append_assoc, List.singleton_append]
        simp [parseVal, skipWs_cons 34 _ (by decide), parseStrAux_escBytes s rest]
      | arr xs =>
        cases xs with
        | nil => rfl
        | cons x xs2 =>
          obtain ⟨c, cs, hx, hws, h93⟩ := dumps_head x
          obtain ⟨Z, hZ⟩ : ∃ Z, dumpsElems (x :: xs2) = c :: Z := by
            cases xs2 with
            | nil => exact ⟨cs, by simp [dumpsElems, hx]⟩
            | cons y ys => exact ⟨cs ++ 44 :: dumpsElems (y :: ys), by simp [dumpsElems, hx]⟩
          have hB : parseElems fuel (dumpsElems (x :: xs2) ++ 93 :: rest) =
              some (x :: xs2, rest) := by
            apply ihB (x :: xs2) rest (by simp)
            simp only [jsize] at hsz
            omega
          show parseVal (fuel + 1) ((91 :: dumpsElems (x :: xs2) ++ [93]) ++ rest) =
            some (.arr (x :: xs2), rest)
          simp only [List.cons_append, List.append_assoc, List.singleton_append]
          simp only [parseVal, skipWs_cons 91 _ (by decide)]
          norm_num
          rw [hZ, List.cons_append, skipWs_cons c _ hws]
          split
          · rename_i r heq
            injection heq with h1 h2
            exact absurd h1 h93
          · rw [← List.cons_append, ← hZ]
            simp only [hB]
      | obj kvs =>
        cases kvs with
        | nil => rfl
        | cons kv kvs2 =>
          obtain ⟨Z, hZ⟩ : ∃ Z, dumpsMems (kv :: kvs2) = 34 :: Z := by
            cases kvs2 with
            | nil => exact ⟨escBytes kv.1 ++ 34 :: (58 :: dumps kv.2), by
                simp [dumpsMems, strLit]⟩
            | cons kv2 kvs3 => exact ⟨escBytes kv.1 ++ 34 :: (58 :: (dumps kv.2 ++
                44 :: dumpsMems (kv2 :: kvs3))), by simp [dumpsMems, strLit]⟩
          have hC : parseMembers fuel (dumpsMems (kv :: kvs2) ++ 125 :: rest) =
              some (kv :: kvs2, rest) := by
            apply ihC (kv :: kvs2) rest (by simp)
            simp only [jsize] at hsz
            omega
          show parseVal (fuel + 1) ((123 :: dumpsMems (kv :: kvs2) ++ [125]) ++ rest) =
            some (.obj (kv :: kvs2), rest)
          simp only [List.cons_append, List.append_assoc, List.singleton_append]
          simp only [parseVal, skipWs_cons 123 _ (by decide)]
          norm_num
          rw [hZ, List.cons_append, skipWs_cons 34 _ (by decide)]
          norm_num
          rw [← List.cons_append, ← hZ, hC]
    · intro xs rest hne hsz
      cases xs with
      | nil => exact absurd rfl hne
      | cons x xs2 =>
        cases xs2 with
        | nil =>
          have hA : parseVal fuel (dumps x ++ 93 :: rest) = some (x, 93 :: rest) := by
            apply ihA x (93 :: rest) ?_ rfl
            simp only [lsize] at hsz
            omega
          show parseElems (fuel + 1) (dumps x ++ 93 :: rest) = some ([x], rest)
          simp only [parseElems, hA]
          rw [skipWs_cons 93 rest (by decide)]
        | cons y ys =>
          have hA : parseVal fuel (dumps x ++ 44 :: (dumpsElems (y :: ys) ++ 93 :: rest)) =
              some (x, 44 :: (dumpsElems (y :: ys) ++ 93 :: rest)) := by
            apply ihA x (44 :: (dumpsElems (y :: ys) ++ 93 :: rest)) ?_ rfl
            simp only [lsize] at hsz
            omega
          have hB2 : parseElems fuel (dumpsElems (y :: ys) ++ 93 :: rest) =
              some (y :: ys, rest) := by
            apply ihB (y :: ys) rest (by simp)
            simp only [lsize] at hsz ⊢
            omega
          show parseElems (fuel + 1) ((dumps x ++ 44 :: dumpsElems (y :: ys)) ++ 93 :: rest) =
            some (x :: y :: ys, rest)
          simp only [List.append_assoc, List.cons_append]
          simp only [parseElems, hA]
          rw [skipWs_cons 44 _ (by decide)]
          simp only [hB2]
    · intro kvs rest hne hsz
      cases kvs with
      | nil => exact absurd rfl hne
      | cons kv kvs2 =>
        obtain ⟨k, v⟩ := kv
        cases kvs2 with
        | nil =>
          have hA : parseVal fuel (dumps v ++ 125 :: rest) = some (v, 125 :: rest) := by
            apply ihA v (125 :: rest) ?_ rfl
            simp only [msize] at hsz
            omega
          simp only [dumpsMems, strLit, List.cons_append, List.append_assoc,
            List.singleton_append]
          simp only [parseMembers, skipWs_cons 34 _ (by decide), List.nil_append,
            parseStrAux_escBytes k, skipWs_cons 58 _ (by decide), hA,
            skipWs_cons 125 _ (by decide)]
        | cons kv2 kvs3 =>
          have hA : parseVal fuel
              (dumps v ++ 44 :: (dumpsMems (kv2 :: kvs3) ++ 125 :: rest)) =
              some (v, 44 :: (dumpsMems (kv2 :: kvs3) ++ 125 :: rest)) := by
            apply ihA v (44 :: (dumpsMems (kv2 :: kvs3) ++ 125 :: rest)) ?_ rfl
            simp only [msize] at hsz
            omega
          have hC2 : parseMembers fuel (dumpsMems (kv2 :: kvs3) ++ 125 :: rest) =
              some (kv2 :: kvs3, rest) := by
            apply ihC (kv2 :: kvs3) rest (by simp)
            simp only [msize] at hsz ⊢
            omega
          simp only [dumpsMems, strLit, List.cons_append, List.append_assoc,
            List.singleton_append]
          simp only [parseMembers, skipWs_cons 34 _ (by decide), List.nil_append,
            parseStrAux_escBytes k, skipWs_cons 58 _ (by decide), hA,
            skipWs_cons 44 _ (by decide), hC2]

mutual
theorem jsize_le_dumps : ∀ m : Json, jsize m ≤ 2 * (dumps m).length
  | .null => by simp [jsize, dumps]
  | .bool b => by cases b <;> simp [jsize, dumps]
  | .num i => by
      have h : intRepr i ≠ [] := by
        unfold intRepr
        split
        · simp
        · exact natDecimal_ne_nil _
      have : 1 ≤ (intRepr i).length := by
        cases hl : intRepr i with
        | nil => exact absurd hl h
        | cons a l => simp
      show jsize (.num i) ≤ 2 * (intRepr i).length
      simp [jsize]
      omega
  | .str s => by
      show jsize (.str s) ≤ 2 * (strLit s).length
      simp [jsize, strLit]
      omega
  | .arr xs => by
      have h := lsize_le_dumpsElems xs
      show 1 + lsize xs ≤ 2 * (91 :: dumpsElems xs ++ [93]).length
      simp only [List.length_cons, List.length_append, List.length_singleton]
      omega
  | .obj kvs => by
      have h := msize_le_dumpsMems kvs
      show 1 + msize kvs ≤ 2 * (123 :: dumpsMems kvs ++ [125]).length
      simp only [List.length_cons, List.length_append, List.length_singleton]
      omega
theorem lsize_le_dumpsElems : ∀ xs : List Json, lsize xs ≤ 2 * (dumpsElems xs).length + 1
  | [] => by simp [lsize, dumpsElems]
  | [x] => by
      have h := jsize_le_dumps x
      show 1 + jsize x + lsize [] ≤ 2 * (dumps x).length + 1
      simp only [lsize]
      omega
  | x :: y :: ys => by
      have h1 := jsize_le_dumps x
      have h2 := lsize_le_dumpsElems (y :: ys)
      show 1 + jsize x + lsize (y :: ys) ≤
        2 * (dumps x ++ 44 :: dumpsElems (y :: ys)).length + 1
      simp only [List.length_append, List.length_cons]
      omega
theorem msize_le_dumpsMems :
    ∀ kvs : List (List Nat × Json), msize kvs ≤ 2 * (dumpsMems kvs).length + 1
  | [] => by simp [msize, dumpsMems]
  | [(k, v)] => by
      have h := jsize_le_dumps v
      show 1 + jsize v + msize [] ≤ 2 * (strLit k ++ 58 :: dumps v).length + 1
      simp only [msize, strLit, List.length_append, List.length_cons]
      omega
  | (k, v) :: kv2 :: kvs => by
      have h1 := jsize_le_dumps v
      have h2 := msize_le_dumpsMems (kv2 :: kvs)
      simp only [msize, dumpsMems, strLit, List.length_append, List.length_cons] at h2 ⊢
      omega
end

/-- Theorem: `json.loads` inverts `json.dumps` for every modelled value. -/
theorem pyLoads_dumps (m : Json) : pyLoads (dumps m) = some m := by
  unfold pyLoads
  have h1 : jsize m ≤ 2 * (dumps m).length + 2 := by
    have := jsize_le_dumps m
    omega
  have h2 := (parser_ok (2 * (dumps m).length + 2)).1 m [] h1 rfl
  rw [List.append_nil] at h2
  rw [h2]
  rfl

/-- Model of `write_lsp_message(stdin, obj)`: the bytes written to the child
stdin — compact JSON body prefixed by a `Content-Length` header and a
blank line. -/
def write_lsp_message (obj : Json) : List Nat :=
  ascii "Content-Length: " ++ natDecimal (dumps obj).length ++ [13, 10, 13, 10] ++ dumps obj

/-- Model of `stdout.readline()`: bytes up to and including the next newline, plus
the remaining stream; at end-of-stream returns what is left (possibly
nothing). -/
def readLine : List Nat → List Nat × List Nat
  | [] => ([], [])
  | c :: rest =>
    if c = 10 then ([c], rest)
    else
      let p := readLine rest
      (c :: p.1, p.2)

/-- The header-reading loop of `read_lsp_message`: reads lines until a
blank line (returning the accumulated header map, latest entry first) or
end-of-stream (returning `none`, the `return None` of the source).  The
fuel argument only serves termination; `readHeaders` supplies more fuel
than the stream has bytes, and every iteration consumes at least one
byte, so the fuel case is never reached. -/
def readHeadersAux : Nat → List Nat → List (List Nat × List Nat) →
    Option (List (List Nat × List Nat)) × List Nat
  | 0, s, _ => (none, s)
  | fuel + 1, s, acc =>
    let p := readLine s
    if p.1 = [] then (none, p.2)
    else if p.1 = [13, 10] ∨ p.1 = [10] then (some acc, p.2)
    else if 58 ∈ p.1 then
      let k := p.1.takeWhile (fun c => c ≠ 58)
      let v := p.1.drop (k.length + 1)
      readHeadersAux fuel p.2 ((pyLower (pyStrip k), pyStrip v) :: acc)
    else readHeadersAux fuel p.2 acc

/-- Header block of one frame. -/
def readHeaders (s : List Nat) : Option (List (List Nat × List Nat)) × List Nat :=
  readHeadersAux (s.length + 1) s []

/-- Python `dict.get` on the header map (latest write wins). -/
def dictGet (hs : List (List Nat × List Nat)) (k : List Nat) : Option (List Nat) :=
  (hs.find? (fun p => p.1 == k)).map (fun p => p.2)

/-- Result of `read_lsp_message`: a returned value or a raised decode
error (`json.JSONDecodeError` / `UnicodeDecodeError`).  The source
returns Python `None` both for "no frame" and for a frame whose body is
`null`; the model mirrors this by using `.ok Json.null` for both. -/
inductive ReadResult where
  | ok : Json → ReadResult
  | decodeError : ReadResult
deriving DecidableEq

/-- Model of `read_lsp_message(stdout)`: reads the header block, extracts the
declared length (`0` on a missing or unparsable field), returns absent
for non-positive lengths or an empty body read, otherwise JSON-parses
exactly the declared number of bytes. -/
def read_lsp_message (s : List Nat) : ReadResult × List Nat :=
  match readHeaders s with
  | (none, rest) => (.ok .null, rest)
  | (some hs, rest) =>
    let raw := (dictGet hs (ascii "content-length")).getD (ascii "0")
    let lengthInt : Int := (pyInt raw).getD 0
    if lengthInt ≤ 0 then (.ok .null, rest)
    else
      let body := rest.take lengthInt.toNat
      if body = [] then (.ok .null, rest.drop lengthInt.toNat)
      else
        match pyLoads body with
        | some j => (.ok j, rest.drop lengthInt.toNat)
        | none => (.decodeError, rest.drop lengthInt.toNat)

example : read_lsp_message
    (ascii "Content-Length: 4\r\n\r\nnull" ++ ascii "XYZ") =
    (.ok .null, ascii "XYZ") := by decide
example : read_lsp_message (ascii "Content-Length: 2\r\n\r\n\x7b\x7d") =
    (.ok (.obj []), []) := by decide
example : read_lsp_message (ascii "Content-Length: 1\r\n\r\n\x7b") =
    (.decodeError, []) := by decide
example : read_lsp_message (ascii "Cox: 1\r\n\r\nrest") = (.ok .null, ascii "rest") := by decide
example : read_lsp_message (ascii "Content-Length: abc\r\n\r\nrest") =
    (.ok .null, ascii "rest") := by decide
example : read_lsp_message [] = (.ok .null, []) := by decide

theorem readLine_append (l : List Nat) (r : List Nat) (h : 10 ∉ l) :
    readLine (l ++ 10 :: r) = (l ++ [10], r) := by
  induction l with
  | nil => simp [readLine]
  | cons c cs ih =>
    simp only [List.mem_cons, not_or] at h
    have hc : ¬ c = 10 := fun hh => h.1 hh.symm
    simp [readLine, hc, ih h.2]

/-- Stripping the header value `" <V>\r\n"` when `V` is whitespace-free
and nonempty. -/
theorem pyStrip_value (V : List Nat) (hne : V ≠ [])
    (hws : ∀ c ∈ V, isPyWs c = false) :
    pyStrip (32 :: (V ++ [13, 10])) = V := by
  cases hV : V with
  | nil => exact absurd hV hne
  | cons c cs =>
    subst hV
    have hc : isPyWs c = false := hws c (by simp)
    have h32 : isPyWs 32 = true := by decide
    have h13 : isPyWs 13 = true := by decide
    have h10 : isPyWs 10 = true := by decide
    have e1 : List.dropWhile isPyWs (32 :: (c :: cs ++ [13, 10])) =
        c :: cs ++ [13, 10] := by
      simp [List.dropWhile_cons, h32, hc]
    have e2 : (c :: cs ++ [13, 10]).reverse = 10 :: 13 :: (c :: cs).reverse := by
      simp
    have hlast : List.dropWhile isPyWs (c :: cs).reverse = (c :: cs).reverse := by
      cases hrev : (c :: cs).reverse with
      | nil => simp at hrev
      | cons d ds =>
        have hd : d ∈ c :: cs := by
          rw [← List.mem_reverse, hrev]
          simp
        simp [List.dropWhile_cons, hws d hd]
    have e3 : List.dropWhile isPyWs (10 :: 13 :: (c :: cs).reverse) =
        (c :: cs).reverse := by
      rw [List.dropWhile_cons, if_pos h10, List.dropWhile_cons, if_pos h13, hlast]
    unfold pyStrip
    rw [e1, e2, e3]
    simp

theorem takeWhile_to_colon (A R : List Nat) (hA : ∀ c ∈ A, c ≠ 58) :
    (A ++ 58 :: R).takeWhile (fun c => decide (c ≠ 58)) = A := by
  simp only [ne_eq, decide_not]
  induction A with
  | nil => simp [List.takeWhile_cons]
  | cons a A ih =>
    have ha := hA a (by simp)
    simp [List.takeWhile_cons, ha, ih (fun c hc => hA c (by simp [hc]))]

theorem drop_after (A R : List Nat) (b : Nat) :
    (A ++ b :: R).drop (A.length + 1) = R := by
  induction A with
  | nil => simp
  | cons a A ih =>
    simp only [List.length_cons, List.cons_append, List.drop_succ_cons]
    exact ih


/-- One header-line step of the header loop. -/
theorem readHeadersAux_step (fuel : Nat) (s s2 L : List Nat)
    (acc : List (List Nat × List Nat))
    (hline : readLine s = (L, s2)) (hne : ¬ L = [])
    (hblank : ¬ (L = [13, 10] ∨ L = [10])) (h58 : 58 ∈ L) :
    readHeadersAux (fuel + 1) s acc =
      readHeadersAux fuel s2
        ((pyLower (pyStrip (L.takeWhile (fun c => decide (c ≠ 58)))),
          pyStrip (L.drop ((L.takeWhile (fun c => decide (c ≠ 58))).length + 1))) :: acc) := by
  simp only [readHeadersAux, hline]
  rw [if_neg hne, if_neg hblank, if_pos h58]

/-- The blank-line step that ends the header loop. -/
theorem readHeadersAux_blank (fuel : Nat) (s s2 : List Nat)
    (acc : List (List Nat × List Nat)) (hline : readLine s = ([13, 10], s2)) :
    readHeadersAux (fuel + 1) s acc = (some acc, s2) := by
  simp only [readHeadersAux, hline]
  rw [if_neg (by decide), if_pos (by decide)]

/-- Reading the header block of a well-formed single-header frame whose
`Content-Length` value bytes are digits or a minus sign: the key is
lowercased, the value is stripped, the stream continues after the blank
line. -/
theorem readHeaders_value (V t : List Nat) (hne : V ≠ [])
    (hmem : ∀ c ∈ V, 48 ≤ c ∧ c ≤ 57 ∨ c = 45) :
    readHeaders (ascii "Content-Length: " ++ V ++ 13 :: 10 :: 13 :: 10 :: t) =
      (some [(ascii "content-length", V)], t) := by
  have h10 : (10 : Nat) ∉ ascii "Content-Length: " ++ V ++ [13] := by
    intro hmem10
    simp only [List.mem_append] at hmem10
    rcases hmem10 with (h | h) | h
    · revert h; decide
    · have := hmem 10 h; omega
    · simp at h
  have hsplit : ascii "Content-Length: " ++ V ++ 13 :: 10 :: 13 :: 10 :: t =
      (ascii "Content-Length: " ++ V ++ [13]) ++ 10 :: (13 :: 10 :: t) := by simp
  have hline : readLine (ascii "Content-Length: " ++ V ++ 13 :: 10 :: 13 :: 10 :: t) =
      ((ascii "Content-Length: " ++ V ++ [13]) ++ [10], 13 :: 10 :: t) := by
    rw [hsplit]
    exact readLine_append _ _ h10
  have hL1 : (ascii "Content-Length: " ++ V ++ [13]) ++ [10] =
      ascii "Content-Length" ++ 58 :: 32 :: (V ++ [13, 10]) := by
    rw [show ascii "Content-Length: " = ascii "Content-Length" ++ [58, 32] from by decide]
    simp
  have hAlen : (ascii "Content-Length: ").length = 16 := by decide
  have hnil : ¬ ((ascii "Content-Length: " ++ V ++ [13]) ++ [10] = []) := by simp
  have hblank : ¬ ((ascii "Content-Length: " ++ V ++ [13]) ++ [10] = [13, 10] ∨
      (ascii "Content-Length: " ++ V ++ [13]) ++ [10] = [10]) := by
    intro hcon
    rcases hcon with h | h <;>
      (have hl := congrArg List.length h
       simp only [List.length_append, List.length_cons, List.length_nil, hAlen] at hl
       omega)
  have h58 : (58 : Nat) ∈ (ascii "Content-Length: " ++ V ++ [13]) ++ [10] := by
    have : (58 : Nat) ∈ ascii "Content-Length: " := by decide
    simp [this]
  have hk : (((ascii "Content-Length: " ++ V ++ [13]) ++ [10]).takeWhile
      (fun c => decide (c ≠ 58))) = ascii "Content-Length" := by
    rw [hL1]
    exact takeWhile_to_colon _ _ (by decide)
  have hklen : (ascii "Content-Length").length = 14 := by decide
  have hv : ((ascii "Content-Length: " ++ V ++ [13]) ++ [10]).drop 15 =
      32 :: (V ++ [13, 10]) := by
    rw [hL1]
    have hdd := drop_after (ascii "Content-Length") (32 :: (V ++ [13, 10])) 58
    rw [hklen] at hdd
    exact hdd
  have hkey : pyLower (pyStrip (ascii "Content-Length")) = ascii "content-length" := by
    decide
  have hval : pyStrip (32 :: (V ++ [13, 10])) = V :=
    pyStrip_value V hne (fun c hc => by
      rcases hmem c hc with ⟨h1, h2⟩ | h1
      · simp [isPyWs]; omega
      · subst h1; decide)
  have hline2 : readLine (13 :: 10 :: t) = ([13, 10], t) := by
    simp [readLine]
  unfold readHeaders
  rw [show (ascii "Content-Length: " ++ V ++ 13 :: 10 :: 13 :: 10 :: t).length + 1 =
    (V.length + t.length + 19) + 1 + 1 from by
      simp only [List.length_append, List.length_cons, hAlen]; omega]
  rw [readHeadersAux_step _ _ _ _ _ hline hnil hblank h58]
  rw [hk, hklen, hv, hkey, hval]
  exact readHeadersAux_blank _ _ _ _ hline2

/-- Frame-level round trip: decoding a stream that starts with an encoded
message yields exactly that message and consumes exactly its frame. -/
theorem read_lsp_message_write (m : Json) (rest : List Nat) :
    read_lsp_message (write_lsp_message m ++ rest) = (.ok m, rest) := by
  have hdne : dumps m ≠ [] := by
    obtain ⟨c, cs, hx, _, _⟩ := dumps_head m
    simp [hx]
  have hdpos : 0 < (dumps m).length := List.length_pos.mpr hdne
  have hH := readHeaders_value (natDecimal (dumps m).length) (dumps m ++ rest)
    (natDecimal_ne_nil _) (fun c hc => Or.inl (natDecimal_mem _ c hc))
  have hs : write_lsp_message m ++ rest =
      ascii "Content-Length: " ++ natDecimal (dumps m).length ++
        13 :: 10 :: 13 :: 10 :: (dumps m ++ rest) := by
    unfold write_lsp_message
    simp
  have hget : dictGet [(ascii "content-length", natDecimal (dumps m).length)]
      (ascii "content-length") = some (natDecimal (dumps m).length) := by
    simp [dictGet]
  unfold read_lsp_message
  rw [hs, hH]
  simp only [hget, Option.getD_some, pyInt_natDecimal]
  rw [if_neg (by omega)]
  rw [show ((dumps m).length : Int).toNat = (dumps m).length from by omega]
  rw [List.take_left, List.drop_left]
  rw [if_neg hdne]
  rw [pyLoads_dumps]

example : read_lsp_message (write_lsp_message (.obj [(ascii "id", .num 3)])) =
    (.ok (.obj [(ascii "id", .num 3)]), []) := by decide

/-- Python truthiness of a decoded JSON value. -/
def jsonTruthy : Json → Bool
  | .null => false
  | .bool b => b
  | .num i => decide (i ≠ 0)
  | .str s => decide (s ≠ [])
  | .arr l => decide (l ≠ [])
  | .obj l => decide (l ≠ [])

/-- Model of `resp.get("id")` on a decoded JSON object (for duplicate keys the
last write wins, as in a Python dict built by `json.loads`). -/
def objGet (kvs : List (List Nat × Json)) (k : List Nat) : Option Json :=
  (kvs.reverse.find? (fun p => p.1 == k)).map (fun p => p.2)

/-- Exceptions that can escape the correlation loops of `run_sequence`:
a decode error raised inside `read_lsp_message`, or an `AttributeError`
from calling `.get` on a decoded non-dict value. -/
inductive RunErr where
  | decodeErr : RunErr
  | attrErr : RunErr
deriving DecidableEq

/-- Model of `responses[rid] = resp`: the response table is a Python dict keyed by
`resp.get("id")` (which may be `None`); latest write first. -/
def tblSet (k : Option Json) (v : Json) (t : List (Option Json × Json)) :
    List (Option Json × Json) := (k, v) :: t

/-- Model of `responses.get(k)`. -/
def tblGet (k : Option Json) (t : List (Option Json × Json)) : Option Json :=
  (t.find? (fun p => p.1 == k)).map (fun p => p.2)

/-- The key `"id"`. -/
def idKey : List Nat := ascii "id"

/-- The main batch correlation loop of `run_sequence`:
`while wanted and time.time() < deadline`, one fuel unit per iteration;
each iteration reads one frame (a `select` timeout is an iteration that
changes no state, which at this abstraction coincides with a read at
end-of-stream).  A response is recorded under its identifier and the
identifier is removed from the pending set when present; a `None`
response continues polling; a decode error or an `AttributeError`
propagates (the loop has no exception handler). -/
def correlate : Nat → List Nat → List Json → List (Option Json × Json) →
    Except RunErr (List (Option Json × Json) × List Json × List Nat)
  | 0, s, wanted, tbl => .ok (tbl, wanted, s)
  | fuel + 1, s, wanted, tbl =>
    if wanted = [] then .ok (tbl, wanted, s)
    else
      match read_lsp_message s with
      | (.decodeError, _) => .error .decodeErr
      | (.ok .null, s2) => correlate fuel s2 wanted tbl
      | (.ok (.obj kvs), s2) =>
        let rid := objGet kvs idKey
        let wanted2 := match rid with
          | some j => if wanted.contains j then wanted.erase j else wanted
          | none => wanted
        correlate fuel s2 wanted2 (tblSet rid (.obj kvs) tbl)
      | (.ok _, _) => .error .attrErr

/-- The shutdown correlation loop of `run_sequence`: waits only for the
response bearing identifier 5 and returns it immediately on match;
non-matching or falsy responses are discarded, a truthy non-dict raises
`AttributeError`, and the loop otherwise runs until its fuel (deadline)
is exhausted with `None` as result. -/
def shutdownLoop : Nat → List Nat → Except RunErr (Option Json × List Nat)
  | 0, s => .ok (none, s)
  | fuel + 1, s =>
    match read_lsp_message s with
    | (.decodeError, _) => .error .decodeErr
    | (.ok m, s2) =>
      if jsonTruthy m then
        match m with
        | .obj kvs =>
          if objGet kvs idKey == some (.num 5) then .ok (some m, s2)
          else shutdownLoop fuel s2
        | _ => .error .attrErr
      else shutdownLoop fuel s2

/-- The environment handed to the child by `spawn_server`:
`os.environ.copy()`, updated with the overrides (config `env` values are
strings, and `str()` on a string is the identity), then
`setdefault("RUST_LOG", "off")`. -/
def spawn_env (base : String → Option String) (overrides : List (String × String)) :
    String → Option String :=
  let merged := overrides.foldl
    (fun acc kv => fun k => if k = kv.1 then some kv.2 else acc k) base
  fun k => if k = "RUST_LOG" then some ((merged "RUST_LOG").getD "off") else merged k

/-- Two-space indentation prefix of `json.dumps(..., indent=2)`. -/
def indentPad (lvl : Nat) : List Nat := List.replicate (2 * lvl) 32

mutual
/-- Model of `json.dumps(v, indent=2)` as UTF-8 bytes (default separators with
indent: `", "` collapses to `","` before the newline, key separator
`": "`). -/
def dumpsInd : Nat → Json → List Nat
  | _, .null => ascii "null"
  | _, .bool true => ascii "true"
  | _, .bool false => ascii "false"
  | _, .num i => intRepr i
  | _, .str s => strLit s
  | _, .arr [] => ascii "[]"
  | lvl, .arr (x :: xs) =>
    91 :: 10 :: (indentPad (lvl + 1) ++ dumpsInd (lvl + 1) x ++
      dumpsIndElems (lvl + 1) xs ++ (10 :: (indentPad lvl ++ [93])))
  | _, .obj [] => ascii "\x7b\x7d"
  | lvl, .obj (kv :: kvs) =>
    123 :: 10 :: (indentPad (lvl + 1) ++ strLit kv.1 ++ (58 :: 32 ::
      dumpsInd (lvl + 1) kv.2) ++ dumpsIndMems (lvl + 1) kvs ++
      (10 :: (indentPad lvl ++ [125])))
/-- Remaining array elements under `indent=2`. -/
def dumpsIndElems : Nat → List Json → List Nat
  | _, [] => []
  | lvl, x :: xs =>
    44 :: 10 :: (indentPad lvl ++ dumpsInd lvl x ++ dumpsIndElems lvl xs)
/-- Remaining object members under `indent=2`. -/
def dumpsIndMems : Nat → List (List Nat × Json) → List Nat
  | _, [] => []
  | lvl, kv :: kvs =>
    44 :: 10 :: (indentPad lvl ++ strLit kv.1 ++ (58 :: 32 :: dumpsInd lvl kv.2) ++
      dumpsIndMems lvl kvs)
end

/-- Model of `json.dumps(v, indent=2)` where `v` may be Python `None` (a missing
table entry prints as the literal `null`). -/
def dumpsOpt : Option Json → List Nat
  | none => ascii "null"
  | some j => dumpsInd 0 j

/-- One printed result line: `print(label + " =>", json.dumps(v, indent=2))`. -/
def renderLine (label : List Nat) (o : Option Json) : List Nat :=
  label ++ ascii " => " ++ dumpsOpt o

/-- The fixed pending-identifier set of the main batch. -/
def wanted0 : List Json := [.num 1, .num 2, .num 3, .num 4]

/-- The four pipelined batch requests written before any response is
read, in source order. -/
def batchRequests : List Json :=
  [.obj [(ascii "jsonrpc", .str (ascii "2.0")), (idKey, .num 1),
     (ascii "method", .str (ascii "initialize"))],
   .obj [(ascii "jsonrpc", .str (ascii "2.0")), (idKey, .num 2),
     (ascii "method", .str (ascii "tools/list"))],
   .obj [(ascii "jsonrpc", .str (ascii "2.0")), (idKey, .num 3),
     (ascii "method", .str (ascii "tools/call")),
     (ascii "params", .obj [(ascii "name", .str (ascii "health_check")),
       (ascii "arguments", .obj [])])],
   .obj [(ascii "jsonrpc", .str (ascii "2.0")), (idKey, .num 4),
     (ascii "method", .str (ascii "tools/call")),
     (ascii "params", .obj [(ascii "name", .str (ascii "query_memory")),
       (ascii "arguments", .obj [(ascii "query", .str (ascii "implement async storage")),
         (ascii "domain", .str (ascii "web-api")),
         (ascii "task_type", .str (ascii "code_generation")),
         (ascii "limit", .num 3)])])]]

/-- The fifth request, `shutdown`, with its own identifier. -/
def shutdownRequest : Json :=
  .obj [(ascii "jsonrpc", .str (ascii "2.0")), (idKey, .num 5),
    (ascii "method", .str (ascii "shutdown"))]

/-- Model of `run_sequence`, modelled over the byte stream the child writes to its
stdout.  The requests go out first (pipelined on stdin, not part of the
inbound stream); then the main correlation pass with identifiers 1-4 and
fuel `fuel1` (the 15-second deadline), then the shutdown pass with fuel
`fuel2` (the 5-second deadline), then the five result lines in fixed
logical order.  An uncaught exception aborts before anything is
printed. -/
def run_sequence (fuel1 fuel2 : Nat) (s : List Nat) :
    Except RunErr (List (List Nat)) :=
  match correlate fuel1 s wanted0 [] with
  | .error e => .error e
  | .ok (responses, _, s2) =>
    match shutdownLoop fuel2 s2 with
    | .error e => .error e
    | .ok (shutdownResp, _) =>
      .ok [renderLine (ascii "initialize") (tblGet (some (.num 1)) responses),
           renderLine (ascii "tools/list") (tblGet (some (.num 2)) responses),
           renderLine (ascii "tools/call(health_check)") (tblGet (some (.num 3)) responses),
           renderLine (ascii "tools/call(query_memory)") (tblGet (some (.num 4)) responses),
           renderLine (ascii "shutdown") shutdownResp]

instance {e a : Type} [DecidableEq e] [DecidableEq a] : DecidableEq (Except e a) := fun x y =>
  match x, y with
  | .ok v, .ok w => if h : v = w then isTrue (by rw [h]) else isFalse (by simp [h])
  | .error v, .error w => if h : v = w then isTrue (by rw [h]) else isFalse (by simp [h])
  | .ok _, .error _ => isFalse (by simp)
  | .error _, .ok _ => isFalse (by simp)

example : dumpsInd 0 (.obj [(ascii "a", .num 1), (ascii "b", .arr [.num 1, .num 2])]) =
    ascii "\x7b\n  \"a\": 1,\n  \"b\": [\n    1,\n    2\n  ]\n\x7d" := by decide
example : run_sequence 8 3
    (write_lsp_message (.obj [(idKey, .num 1)]) ++ write_lsp_message (.obj [(idKey, .num 2)]) ++
     write_lsp_message (.obj [(idKey, .num 3)]) ++ write_lsp_message (.obj [(idKey, .num 4)])) =
    .ok [ascii "initialize => \x7b\n  \"id\": 1\n\x7d",
         ascii "tools/list => \x7b\n  \"id\": 2\n\x7d",
         ascii "tools/call(health_check) => \x7b\n  \"id\": 3\n\x7d",
         ascii "tools/call(query_memory) => \x7b\n  \"id\": 4\n\x7d",
         ascii "shutdown => null"] := by decide

/-- The decoder at end-of-stream reports absent without consuming input. -/
theorem read_lsp_message_eof : read_lsp_message [] = (.ok .null, []) := rfl

/-- Exhausting the deadline at end-of-stream: the loop spins without
changing its table or pending set. -/
theorem correlate_eof (fuel : Nat) : ∀ wanted tbl,
    correlate fuel [] wanted tbl = .ok (tbl, wanted, []) := by
  induction fuel with
  | zero => intro w t; rfl
  | succ fuel ih =>
    intro w t
    simp only [correlate, read_lsp_message_eof]
    split
    · rfl
    · exact ih w t

/-- The shutdown loop at end-of-stream runs out its deadline with no
response. -/
theorem shutdownLoop_eof (fuel : Nat) : shutdownLoop fuel [] = .ok (none, []) := by
  induction fuel with
  | zero => rfl
  | succ fuel ih =>
    simp only [shutdownLoop, read_lsp_message_eof, jsonTruthy]
    exact ih

/-- A correlation pass whose pending set is already empty returns at
once. -/
theorem correlate_wanted_nil (fuel : Nat) (s : List Nat) (tbl : List (Option Json × Json)) :
    correlate fuel s [] tbl = .ok (tbl, [], s) := by
  cases fuel with
  | zero => rfl
  | succ fuel => simp [correlate]

/-- One iteration of the main loop on an encoded object frame: the
response is recorded under its identifier, which is removed from the
pending set exactly when present. -/
theorem correlate_step (fuel : Nat) (kvs : List (List Nat × Json)) (s : List Nat)
    (wanted : List Json) (tbl : List (Option Json × Json)) (hw : wanted ≠ []) :
    correlate (fuel + 1) (write_lsp_message (.obj kvs) ++ s) wanted tbl =
      correlate fuel s
        (match objGet kvs idKey with
         | some j => if wanted.contains j then wanted.erase j else wanted
         | none => wanted)
        (tblSet (objGet kvs idKey) (.obj kvs) tbl) := by
  simp only [correlate, read_lsp_message_write (.obj kvs) s, if_neg hw]

/-- Model of `resp.get("id")` lifted to any decoded value (the loops only reach it
on dict values). -/
def ridOf : Json → Option Json
  | .obj kvs => objGet kvs idKey
  | _ => none

/-- Byte stream carrying a sequence of encoded frames. -/
def encodeAll (ms : List Json) : List Nat := (ms.map write_lsp_message).flatten

/-- Pending set after the loop has consumed the frames of `ms`. -/
def wantedAfter (ms : List Json) (wanted : List Json) : List Json :=
  ms.foldl
    (fun w m =>
      match ridOf m with
      | some j => if w.contains j then w.erase j else w
      | none => w)
    wanted

/-- Response table after the loop has consumed the frames of `ms`. -/
def tblAfter (ms : List Json) (tbl : List (Option Json × Json)) :
    List (Option Json × Json) :=
  ms.foldl (fun t m => tblSet (ridOf m) m t) tbl

/-- Consuming a batch of identifier-bearing object frames whose distinct
identifiers all lie in the pending set: the loop records every frame and
erases every identifier, then continues on the remaining stream and
fuel. -/
theorem correlate_batch (ms : List Json) : ∀ (fuel : Nat) (wanted : List Json)
    (tbl : List (Option Json × Json)) (s : List Nat),
    ms.length ≤ fuel →
    (∀ m ∈ ms, ∃ kvs, m = Json.obj kvs) →
    (∀ m ∈ ms, ∃ j, ridOf m = some j ∧ j ∈ wanted) →
    (ms.filterMap ridOf).Nodup →
    correlate fuel (encodeAll ms ++ s) wanted tbl =
      correlate (fuel - ms.length) s (wantedAfter ms wanted) (tblAfter ms tbl) := by
  induction ms with
  | nil =>
    intro fuel wanted tbl s hf hobj hid hnd
    simp [encodeAll, wantedAfter, tblAfter]
  | cons m ms ih =>
    intro fuel wanted tbl s hf hobj hid hnd
    obtain ⟨kvs, hkvs⟩ := hobj m (by simp)
    obtain ⟨j, hj, hjw⟩ := hid m (by simp)
    cases fuel with
    | zero => simp at hf
    | succ fuel =>
      have hwne : wanted ≠ [] := by
        intro hnil
        rw [hnil] at hjw
        simp at hjw
      have hstream : encodeAll (m :: ms) ++ s =
          write_lsp_message (.obj kvs) ++ (encodeAll ms ++ s) := by
        simp [encodeAll, hkvs]
      rw [hstream, correlate_step fuel kvs _ wanted tbl hwne]
      have hrid : objGet kvs idKey = some j := by
        rw [hkvs] at hj
        exact hj
      rw [hrid]
      have hcont : wanted.contains j = true := List.elem_iff.mpr hjw
      simp only [hcont, if_true]
      have hid2 : ∀ m2 ∈ ms, ∃ j2, ridOf m2 = some j2 ∧ j2 ∈ wanted.erase j := by
        intro m2 hm2
        obtain ⟨j2, hj2, hj2w⟩ := hid m2 (by simp [hm2])
        refine ⟨j2, hj2, ?_⟩
        have hne : j2 ≠ j := by
          intro heq
          subst heq
          have : j2 ∈ ms.filterMap ridOf := List.mem_filterMap.mpr ⟨m2, hm2, hj2⟩
          have hnd2 := hnd
          simp only [List.filterMap_cons, hj] at hnd2
          rw [List.nodup_cons] at hnd2
          exact hnd2.1 this
        exact (List.mem_erase_of_ne hne).mpr hj2w
      have := ih fuel (wanted.erase j) (tblSet (some j) m tbl) s (by simpa using hf)
        (fun m2 hm2 => hobj m2 (by simp [hm2])) hid2
        (by
          have hnd2 := hnd
          simp only [List.filterMap_cons, hj] at hnd2
          exact (List.nodup_cons.mp hnd2).2)
      rw [show tblSet (some j) (Json.obj kvs) tbl = tblSet (some j) m tbl from by
        rw [hkvs]]
      rw [this]
      congr 1
      · simp only [List.length_cons]
        omega
      · rw [show wantedAfter (m :: ms) wanted =
          wantedAfter ms (if wanted.contains j then wanted.erase j else wanted) from by
            simp [wantedAfter, List.foldl_cons, hj]]
        rw [if_pos hcont]
      · rw [show tblAfter (m :: ms) tbl = tblAfter ms (tblSet (ridOf m) m tbl) from by
          simp [tblAfter]]
        rw [show ridOf m = some j from hj]

theorem wantedAfter_length (ms : List Json) : ∀ (wanted : List Json),
    (∀ m ∈ ms, ∃ j, ridOf m = some j ∧ j ∈ wanted) →
    (ms.filterMap ridOf).Nodup →
    (wantedAfter ms wanted).length + ms.length = wanted.length := by
  induction ms with
  | nil => intro wanted _ _; simp [wantedAfter]
  | cons m ms ih =>
    intro wanted hid hnd
    obtain ⟨j, hj, hjw⟩ := hid m (by simp)
    have hcont : wanted.contains j = true := List.elem_iff.mpr hjw
    have hstep : wantedAfter (m :: ms) wanted = wantedAfter ms (wanted.erase j) := by
      simp only [wantedAfter, List.foldl_cons, hj, hcont, if_true]
    rw [hstep]
    have hid2 : ∀ m2 ∈ ms, ∃ j2, ridOf m2 = some j2 ∧ j2 ∈ wanted.erase j := by
      intro m2 hm2
      obtain ⟨j2, hj2, hj2w⟩ := hid m2 (by simp [hm2])
      refine ⟨j2, hj2, ?_⟩
      have hne : j2 ≠ j := by
        intro heq
        subst heq
        have hmem : j2 ∈ ms.filterMap ridOf := List.mem_filterMap.mpr ⟨m2, hm2, hj2⟩
        simp only [List.filterMap_cons, hj] at hnd
        exact (List.nodup_cons.mp hnd).1 hmem
      exact (List.mem_erase_of_ne hne).mpr hj2w
    have hnd2 : (ms.filterMap ridOf).Nodup := by
      simp only [List.filterMap_cons, hj] at hnd
      exact (List.nodup_cons.mp hnd).2
    have hrec := ih (wanted.erase j) hid2 hnd2
    have herase := List.length_erase_of_mem hjw
    have hpos : 0 < wanted.length := List.length_pos.mpr (by
      intro hn; rw [hn] at hjw; simp at hjw)
    simp only [List.length_cons]
    omega

theorem tblAfter_get_notin (ms : List Json) : ∀ (tbl : List (Option Json × Json)) (j : Json),
    (∀ m ∈ ms, ∃ j2, ridOf m = some j2 ∧ j2 ≠ j) →
    tblGet (some j) (tblAfter ms tbl) = tblGet (some j) tbl := by
  induction ms with
  | nil => intro tbl j _; rfl
  | cons m ms ih =>
    intro tbl j hid
    obtain ⟨j2, hj2, hne⟩ := hid m (by simp)
    have hstep : tblAfter (m :: ms) tbl = tblAfter ms (tblSet (some j2) m tbl) := by
      simp [tblAfter, hj2]
    rw [hstep, ih _ j (fun m2 hm2 => hid m2 (by simp [hm2]))]
    have hbeq : (j2 == j) = false := beq_eq_false_iff_ne.mpr hne
    simp [tblGet, tblSet, List.find?, hbeq]

theorem tblAfter_get (ms : List Json) : ∀ (tbl : List (Option Json × Json)) (j : Json)
    (m : Json),
    (∀ m2 ∈ ms, ∃ j2, ridOf m2 = some j2) →
    (ms.filterMap ridOf).Nodup →
    m ∈ ms → ridOf m = some j →
    tblGet (some j) (tblAfter ms tbl) = some m := by
  induction ms with
  | nil => intro _ _ _ _ _ hm _; simp at hm
  | cons m2 ms ih =>
    intro tbl j m hids hnd hm hj
    obtain ⟨j2, hj2⟩ := hids m2 (by simp)
    have hstep : tblAfter (m2 :: ms) tbl = tblAfter ms (tblSet (some j2) m2 tbl) := by
      simp [tblAfter, hj2]
    rw [hstep]
    rcases List.mem_cons.mp hm with heq | hmem
    · subst heq
      have hjj : j2 = j := by
        rw [hj] at hj2
        exact (Option.some.inj hj2).symm
      subst hjj
      have hnotin : ∀ m3 ∈ ms, ∃ j3, ridOf m3 = some j3 ∧ j3 ≠ j2 := by
        intro m3 hm3
        obtain ⟨j3, hj3⟩ := hids m3 (by simp [hm3])
        refine ⟨j3, hj3, ?_⟩
        intro heq3
        subst heq3
        have hmem3 : j3 ∈ ms.filterMap ridOf := List.mem_filterMap.mpr ⟨m3, hm3, hj3⟩
        simp only [List.filterMap_cons, hj2] at hnd
        exact (List.nodup_cons.mp hnd).1 hmem3
      rw [tblAfter_get_notin ms _ j2 hnotin]
      simp [tblGet, tblSet, List.find?]
    · have hnd2 : (ms.filterMap ridOf).Nodup := by
        simp only [List.filterMap_cons, hj2] at hnd
        exact (List.nodup_cons.mp hnd).2
      exact ih _ j m (fun m3 hm3 => hids m3 (by simp [hm3])) hnd2 hmem hj

/-- Across a whole correlation pass the pending set only shrinks: every
identifier still pending at the end was pending at the start. -/
theorem correlate_subset (fuel : Nat) : ∀ (s : List Nat) (wanted : List Json)
    (tbl tbl2 : List (Option Json × Json)) (wanted2 : List Json) (s2 : List Nat),
    correlate fuel s wanted tbl = .ok (tbl2, wanted2, s2) → wanted2 ⊆ wanted := by
  induction fuel with
  | zero =>
    intro s w tbl tbl2 w2 s2 h
    simp only [correlate, Except.ok.injEq, Prod.mk.injEq] at h
    obtain ⟨-, h2, -⟩ := h
    subst h2
    exact List.Subset.refl w
  | succ fuel ih =>
    intro s w tbl tbl2 w2 s2 h
    simp only [correlate] at h
    by_cases hw : w = []
    · rw [if_pos hw] at h
      simp only [Except.ok.injEq, Prod.mk.injEq] at h
      obtain ⟨-, h2, -⟩ := h
      subst h2
      exact List.Subset.refl w
    · rw [if_neg hw] at h
      split at h
      · exact absurd h (by simp)
      · exact ih _ _ _ _ _ _ h
      · rename_i kvs s3 heq
        have hsub := ih _ _ _ _ _ _ h
        refine List.Subset.trans hsub ?_
        cases hrid : objGet kvs idKey with
        | none => simp only [hrid]; exact List.Subset.refl w
        | some j =>
          simp only [hrid]
          split
          · intro x hx
            exact List.mem_of_mem_erase hx
          · exact List.Subset.refl w
      · exact absurd h (by simp)

theorem dictGet_singleton (k v : List Nat) : dictGet [(k, v)] k = some v := by
  simp [dictGet]

theorem intRepr_mem (i : Int) : ∀ c ∈ intRepr i, (48 ≤ c ∧ c ≤ 57) ∨ c = 45 := by
  intro c hc
  unfold intRepr at hc
  split at hc
  · rcases List.mem_cons.mp hc with h | h
    · exact Or.inr h
    · exact Or.inl (natDecimal_mem _ c h)
  · exact Or.inl (natDecimal_mem _ c hc)

/-- C3.  Round trip of the frame codec: decoding the byte stream produced
by encoding any well-formed message yields that message again, with the
stream fully consumed. -/
theorem claim_C3_roundtrip (m : Json) (_hwf : jwf m = true) :
    read_lsp_message (write_lsp_message m) = (.ok m, []) := by
  have h := read_lsp_message_write m []
  rwa [List.append_nil] at h

theorem claim_C3_roundtrip_witness :
    jwf (.obj [(idKey, .num 1), (ascii "result", .arr [.str (ascii "a\"b"), .num (-7)])])
        = true ∧
    read_lsp_message (write_lsp_message
        (.obj [(idKey, .num 1), (ascii "result", .arr [.str (ascii "a\"b"), .num (-7)])])) =
      (.ok (.obj [(idKey, .num 1), (ascii "result", .arr [.str (ascii "a\"b"), .num (-7)])]),
        []) :=
  ⟨by decide, claim_C3_roundtrip _ (by decide)⟩

/-- C2, counterexample.  A header declaring length 100 followed by one
body byte and end-of-stream does not decode to absent: the partial body
reaches `json.loads`, which raises. -/
theorem claim_C2_counterexample :
    read_lsp_message (ascii "Content-Length: 100\r\n\r\nx") = (.decodeError, []) ∧
    (ReadResult.decodeError, ([] : List Nat)) ≠ (.ok .null, []) := by
  constructor
  · decide
  · decide

/-- C2, amended.  Truncation safety holds only for the zero-byte case:
for every positive declared length, a stream that ends immediately after
the header block decodes to absent; when one or more (but fewer than the
declared) body bytes remain, they are passed to the JSON parser instead
(raising a decode error when they are not valid JSON, as the
counterexample shows). -/
theorem claim_C2_amended (n : Nat) (hn : 0 < n) :
    read_lsp_message (ascii "Content-Length: " ++ natDecimal n ++ [13, 10, 13, 10]) =
      (.ok .null, []) := by
  have hH := readHeaders_value (natDecimal n) [] (natDecimal_ne_nil n)
    (fun c hc => Or.inl (natDecimal_mem n c hc))
  unfold read_lsp_message
  rw [show ascii "Content-Length: " ++ natDecimal n ++ [13, 10, 13, 10] =
    ascii "Content-Length: " ++ natDecimal n ++ 13 :: 10 :: 13 :: 10 :: ([] : List Nat)
    from by simp]
  rw [hH]
  simp only [dictGet_singleton, Option.getD_some, pyInt_natDecimal]
  rw [if_neg (by omega)]
  simp

theorem claim_C2_amended_witness :
    0 < 100 ∧
    read_lsp_message (ascii "Content-Length: " ++ natDecimal 100 ++ [13, 10, 13, 10]) =
      (.ok .null, []) :=
  ⟨by decide, claim_C2_amended 100 (by decide)⟩

/-- C7.  Length-field robustness: when the header block parses but the
`content-length` key is absent, or its value is not a Python integer
literal, the declared length is treated as zero and decode returns
absent without touching the body. -/
theorem claim_C7_length_robustness (s : List Nat) (hs : List (List Nat × List Nat))
    (rest : List Nat) (hH : readHeaders s = (some hs, rest))
    (hlen : dictGet hs (ascii "content-length") = none ∨
      ∃ v, dictGet hs (ascii "content-length") = some v ∧ pyInt v = none) :
    read_lsp_message s = (.ok .null, rest) := by
  unfold read_lsp_message
  rw [hH]
  rcases hlen with h | ⟨v, hv, hpv⟩
  · simp only [h, Option.getD_none]
    rw [show pyInt (ascii "0") = some 0 from by decide]
    simp
  · simp only [hv, Option.getD_some, hpv, Option.getD_none]
    simp

theorem claim_C7_length_robustness_witness :
    readHeaders (ascii "X-Other: 1\r\n\r\nBODY") =
      (some [(ascii "x-other", ascii "1")], ascii "BODY") ∧
    read_lsp_message (ascii "X-Other: 1\r\n\r\nBODY") = (.ok .null, ascii "BODY") ∧
    readHeaders (ascii "Content-Length: abc\r\n\r\nBODY") =
      (some [(ascii "content-length", ascii "abc")], ascii "BODY") ∧
    read_lsp_message (ascii "Content-Length: abc\r\n\r\nBODY") =
      (.ok .null, ascii "BODY") := by
  refine ⟨by decide, ?_, by decide, ?_⟩
  · exact claim_C7_length_robustness (ascii "X-Other: 1\r\n\r\nBODY")
      [(ascii "x-other", ascii "1")] (ascii "BODY") (by decide) (Or.inl (by decide))
  · exact claim_C7_length_robustness (ascii "Content-Length: abc\r\n\r\nBODY")
      [(ascii "content-length", ascii "abc")] (ascii "BODY") (by decide)
      (Or.inr ⟨ascii "abc", by decide, by decide⟩)

/-- C9.  Early return of the shutdown pass: as soon as the stream yields
the response bearing identifier 5, the pass returns it at once — for any
remaining deadline and without touching the rest of the stream. -/
theorem claim_C9_shutdown_early (kvs : List (List Nat × Json)) (fuel : Nat)
    (rest : List Nat) (hid : objGet kvs idKey = some (.num 5)) :
    shutdownLoop (fuel + 1) (write_lsp_message (.obj kvs) ++ rest) =
      .ok (some (.obj kvs), rest) := by
  have hne : kvs ≠ [] := by
    intro h
    rw [h] at hid
    simp [objGet] at hid
  have htruthy : jsonTruthy (.obj kvs) = true := by
    simp [jsonTruthy, hne]
  have hbeq : (objGet kvs idKey == some (Json.num 5)) = true := by
    rw [hid]
    simp
  simp only [shutdownLoop, read_lsp_message_write (.obj kvs) rest, htruthy, if_true, hbeq]

theorem claim_C9_shutdown_early_witness :
    objGet [(idKey, Json.num 5)] idKey = some (.num 5) ∧
    shutdownLoop 4 (write_lsp_message (.obj [(idKey, .num 5)]) ++ ascii "LEFT") =
      .ok (some (.obj [(idKey, .num 5)]), ascii "LEFT") :=
  ⟨by decide, claim_C9_shutdown_early [(idKey, .num 5)] 3 (ascii "LEFT") (by decide)⟩

/-- Header block of a frame with no `Content-Length` field at all. -/
theorem readHeaders_xother (t : List Nat) :
    readHeaders (ascii "X-Other: 1" ++ 13 :: 10 :: 13 :: 10 :: t) =
      (some [(ascii "x-other", ascii "1")], t) := by
  have hline : readLine (ascii "X-Other: 1" ++ 13 :: 10 :: 13 :: 10 :: t) =
      ((ascii "X-Other: 1" ++ [13]) ++ [10], 13 :: 10 :: t) := by
    rw [show ascii "X-Other: 1" ++ 13 :: 10 :: 13 :: 10 :: t =
      (ascii "X-Other: 1" ++ [13]) ++ 10 :: (13 :: 10 :: t) from by simp]
    exact readLine_append _ _ (by decide)
  unfold readHeaders
  rw [show (ascii "X-Other: 1" ++ 13 :: 10 :: 13 :: 10 :: t).length + 1 =
    (t.length + 13) + 1 + 1 from by
      simp only [List.length_append, List.length_cons,
        show (ascii "X-Other: 1").length = 10 from by decide]
      omega]
  rw [readHeadersAux_step _ _ _ _ _ hline (by decide) (by decide) (by decide)]
  have hpair : (pyLower (pyStrip (List.takeWhile (fun c => decide (c ≠ 58))
        (ascii "X-Other: 1" ++ [13] ++ [10]))),
      pyStrip (List.drop ((List.takeWhile (fun c => decide (c ≠ 58))
        (ascii "X-Other: 1" ++ [13] ++ [10])).length + 1)
        (ascii "X-Other: 1" ++ [13] ++ [10]))) =
      ((ascii "x-other", ascii "1") : List Nat × List Nat) := by decide
  rw [hpair]
  exact readHeadersAux_blank _ _ _ _ (by simp [readLine])

/-- C10.  A header that explicitly declares a non-positive
`Content-Length` makes decode return absent without consuming or parsing
any body byte, exactly as a header block with no length field does: the
two streams continue identically. -/
theorem claim_C10_nonpositive_length (z : Int) (hz : z ≤ 0) (body : List Nat) :
    read_lsp_message (ascii "Content-Length: " ++ intRepr z ++ [13, 10, 13, 10] ++ body) =
      (.ok .null, body) ∧
    read_lsp_message (ascii "X-Other: 1" ++ [13, 10, 13, 10] ++ body) =
      (.ok .null, body) := by
  constructor
  · have hne : intRepr z ≠ [] := by
      unfold intRepr
      split
      · simp
      · exact natDecimal_ne_nil _
    have hH := readHeaders_value (intRepr z) body hne (intRepr_mem z)
    unfold read_lsp_message
    rw [show ascii "Content-Length: " ++ intRepr z ++ [13, 10, 13, 10] ++ body =
      ascii "Content-Length: " ++ intRepr z ++ 13 :: 10 :: 13 :: 10 :: body from by simp]
    rw [hH]
    simp only [dictGet_singleton, Option.getD_some, pyInt_intRepr]
    rw [if_pos hz]
  · have hH := readHeaders_xother body
    unfold read_lsp_message
    rw [show ascii "X-Other: 1" ++ [13, 10, 13, 10] ++ body =
      ascii "X-Other: 1" ++ 13 :: 10 :: 13 :: 10 :: body from by simp]
    rw [hH]
    have hdg : dictGet [(ascii "x-other", ascii "1")] (ascii "content-length") = none := by
      decide
    have hpy : pyInt (ascii "0") = some 0 := by decide
    simp only [hdg, Option.getD_none, hpy, Option.getD_some]
    simp

theorem claim_C10_nonpositive_length_witness :
    ((-7 : Int) ≤ 0 ∧
      read_lsp_message (ascii "Content-Length: " ++ intRepr (-7) ++ [13, 10, 13, 10] ++
        ascii "BODY") = (.ok .null, ascii "BODY")) ∧
    ((0 : Int) ≤ 0 ∧
      read_lsp_message (ascii "Content-Length: " ++ intRepr 0 ++ [13, 10, 13, 10] ++
        ascii "BODY") = (.ok .null, ascii "BODY")) :=
  ⟨⟨by decide, (claim_C10_nonpositive_length (-7) (by decide) (ascii "BODY")).1⟩,
   ⟨by decide, (claim_C10_nonpositive_length 0 (by decide) (ascii "BODY")).1⟩⟩

/-- C6.  Pending-set invariant: (a) across a whole correlation pass the
pending set only shrinks — whatever is still pending at the end was
pending at the start; (b) one iteration on a response whose identifier is
in the pending set records the response and removes exactly that
identifier; (c) one iteration on a response whose identifier is not in
the pending set still records it but leaves the pending set unchanged,
so it cannot affect when the loop emptiness test fires. -/
theorem claim_C6_pending_invariant :
    (∀ (fuel : Nat) (s : List Nat) (wanted : List Json)
        (tbl tbl2 : List (Option Json × Json)) (wanted2 : List Json) (s2 : List Nat),
      correlate fuel s wanted tbl = .ok (tbl2, wanted2, s2) → wanted2 ⊆ wanted) ∧
    (∀ (fuel : Nat) (kvs : List (List Nat × Json)) (s : List Nat) (wanted : List Json)
        (tbl : List (Option Json × Json)) (j : Json),
      wanted ≠ [] → objGet kvs idKey = some j → j ∈ wanted →
      correlate (fuel + 1) (write_lsp_message (.obj kvs) ++ s) wanted tbl =
        correlate fuel s (wanted.erase j) (tblSet (some j) (.obj kvs) tbl)) ∧
    (∀ (fuel : Nat) (kvs : List (List Nat × Json)) (s : List Nat) (wanted : List Json)
        (tbl : List (Option Json × Json)) (j : Json),
      wanted ≠ [] → objGet kvs idKey = some j → j ∉ wanted →
      correlate (fuel + 1) (write_lsp_message (.obj kvs) ++ s) wanted tbl =
        correlate fuel s wanted (tblSet (some j) (.obj kvs) tbl)) := by
  refine ⟨fun fuel => correlate_subset fuel, ?_, ?_⟩
  · intro fuel kvs s wanted tbl j hw hj hjw
    rw [correlate_step fuel kvs s wanted tbl hw, hj]
    have hc : wanted.contains j = true := List.elem_iff.mpr hjw
    simp only [hc, if_true]
  · intro fuel kvs s wanted tbl j hw hj hjw
    rw [correlate_step fuel kvs s wanted tbl hw, hj]
    have hc : wanted.contains j = false :=
      Bool.not_eq_true _ |>.mp (fun hh => hjw (List.elem_iff.mp hh))
    simp only [hc, Bool.false_eq_true, if_false]

theorem claim_C6_pending_invariant_witness :
    (([Json.num 2] : List Json) ⊆ [Json.num 1, Json.num 2]) ∧
    (correlate 1 (write_lsp_message (.obj [(idKey, .num 1)]) ++ []) [.num 1, .num 2] [] =
      correlate 0 [] ([Json.num 1, Json.num 2].erase (.num 1))
        (tblSet (some (.num 1)) (.obj [(idKey, .num 1)]) [])) ∧
    (correlate 1 (write_lsp_message (.obj [(idKey, .num 9)]) ++ []) [.num 1, .num 2] [] =
      correlate 0 [] [Json.num 1, Json.num 2]
        (tblSet (some (.num 9)) (.obj [(idKey, .num 9)]) [])) := by
  refine ⟨?_, ?_, ?_⟩
  · exact claim_C6_pending_invariant.1 2 (write_lsp_message (.obj [(idKey, .num 1)]))
      [.num 1, .num 2] [] [(some (.num 1), .obj [(idKey, .num 1)])] [.num 2] []
      (by decide)
  · exact claim_C6_pending_invariant.2.1 0 [(idKey, .num 1)] [] [.num 1, .num 2] []
      (.num 1) (by decide) (by decide) (by decide)
  · exact claim_C6_pending_invariant.2.2 0 [(idKey, .num 9)] [] [.num 1, .num 2] []
      (.num 9) (by decide) (by decide) (by decide)

/-- C1, counterexample.  A complete frame whose one-byte body `{` is
syntactically invalid JSON aborts the whole run: the correlation loop
re-raises the decode error and the harness prints no result lines at
all, contradicting the claim that it always terminates normally and
prints all five exchanges. -/
theorem claim_C1_counterexample :
    run_sequence 20 5 (ascii "Content-Length: 1\r\n\r\n\x7b") = .error .decodeErr := by
  decide

/-- C1, amended.  A decoded frame with a malformed JSON body is neither
logged nor skipped: whatever fuel, pending set, table and following
bytes, the main correlation loop aborts at once with the decode error
(the loop body has no exception handler around `read_lsp_message`). -/
theorem claim_C1_amended (fuel : Nat) (wanted : List Json)
    (tbl : List (Option Json × Json)) (rest : List Nat) (hw : wanted ≠ []) :
    correlate (fuel + 1) (ascii "Content-Length: 1" ++ [13, 10, 13, 10] ++ 123 :: rest)
      wanted tbl = .error .decodeErr := by
  have hH := readHeaders_value (ascii "1") (123 :: rest) (by decide) (by decide)
  have hdec : read_lsp_message (ascii "Content-Length: 1" ++ [13, 10, 13, 10] ++
      123 :: rest) = (.decodeError, rest) := by
    unfold read_lsp_message
    rw [show ascii "Content-Length: 1" ++ [13, 10, 13, 10] ++ 123 :: rest =
      ascii "Content-Length: " ++ ascii "1" ++ 13 :: 10 :: 13 :: 10 :: (123 :: rest) from by
        rw [show ascii "Content-Length: 1" = ascii "Content-Length: " ++ ascii "1" from by
          decide]
        simp]
    rw [hH]
    have hpy : pyInt (ascii "1") = some 1 := by decide
    simp only [dictGet_singleton, Option.getD_some, hpy]
    rw [if_neg (by omega)]
    have htake : List.take ((1 : Int)).toNat (123 :: rest) = [123] := by simp
    have hdrop : List.drop ((1 : Int)).toNat (123 :: rest) = rest := by simp
    rw [htake, hdrop]
    rw [if_neg (by decide)]
    rw [show pyLoads [123] = none from by decide]
  simp only [correlate, hdec, if_neg hw]

theorem claim_C1_amended_witness :
    ([Json.num 1] : List Json) ≠ [] ∧
    correlate 6 (ascii "Content-Length: 1" ++ [13, 10, 13, 10] ++ 123 :: ascii "tail")
      [Json.num 1] [] = .error .decodeErr :=
  ⟨by decide, claim_C1_amended 5 [Json.num 1] [] (ascii "tail") (by decide)⟩

/-- C4.  Order independence of correlation: for pending identifiers
`{1,2,3,4}` and a stream delivering the four responses in any order
(any permutation, in particular `4,3,2,1`), the pass drains the pending
set and its table maps each identifier to exactly the response that
carried it. -/
theorem claim_C4_order_independence (m1 m2 m3 m4 : Json)
    (k1 k2 k3 k4 : List (List Nat × Json))
    (h1 : m1 = .obj k1) (h2 : m2 = .obj k2) (h3 : m3 = .obj k3) (h4 : m4 = .obj k4)
    (hid1 : ridOf m1 = some (.num 1)) (hid2 : ridOf m2 = some (.num 2))
    (hid3 : ridOf m3 = some (.num 3)) (hid4 : ridOf m4 = some (.num 4))
    (ms : List Json) (hperm : ms.Perm [m1, m2, m3, m4])
    (fuel : Nat) (hfuel : 4 ≤ fuel) (tail : List Nat) :
    ∃ tbl, correlate fuel (encodeAll ms ++ tail) wanted0 [] = .ok (tbl, [], tail) ∧
      tblGet (some (.num 1)) tbl = some m1 ∧
      tblGet (some (.num 2)) tbl = some m2 ∧
      tblGet (some (.num 3)) tbl = some m3 ∧
      tblGet (some (.num 4)) tbl = some m4 := by
  have hmem4 : ∀ m ∈ ms, m ∈ [m1, m2, m3, m4] := fun m hm => hperm.mem_iff.mp hm
  have hobj : ∀ m ∈ ms, ∃ kvs, m = Json.obj kvs := by
    intro m hm
    have := hmem4 m hm
    simp only [List.mem_cons, List.not_mem_nil, or_false] at this
    rcases this with rfl | rfl | rfl | rfl
    exacts [⟨k1, h1⟩, ⟨k2, h2⟩, ⟨k3, h3⟩, ⟨k4, h4⟩]
  have hid : ∀ m ∈ ms, ∃ j, ridOf m = some j ∧ j ∈ wanted0 := by
    intro m hm
    have := hmem4 m hm
    simp only [List.mem_cons, List.not_mem_nil, or_false] at this
    rcases this with rfl | rfl | rfl | rfl
    exacts [⟨.num 1, hid1, by decide⟩, ⟨.num 2, hid2, by decide⟩,
      ⟨.num 3, hid3, by decide⟩, ⟨.num 4, hid4, by decide⟩]
  have hids4 : [m1, m2, m3, m4].filterMap ridOf =
      [Json.num 1, .num 2, .num 3, .num 4] := by
    simp only [List.filterMap_cons, hid1, hid2, hid3, hid4, List.filterMap_nil]
  have hnd : (ms.filterMap ridOf).Nodup := by
    have hp : (ms.filterMap ridOf).Perm ([m1, m2, m3, m4].filterMap ridOf) :=
      hperm.filterMap _
    rw [hids4] at hp
    exact hp.nodup_iff.mpr (by decide)
  have hlen : ms.length = 4 := by rw [hperm.length_eq]; rfl
  have hbatch := correlate_batch ms fuel wanted0 [] tail (by omega) hobj hid hnd
  have hwlen := wantedAfter_length ms wanted0 hid hnd
  have hwnil : wantedAfter ms wanted0 = [] := by
    apply List.length_eq_zero.mp
    have h4 : wanted0.length = 4 := rfl
    omega
  have hids : ∀ m2 ∈ ms, ∃ j2, ridOf m2 = some j2 :=
    fun m2 hm2 => (hid m2 hm2).imp (fun j hj => hj.1)
  refine ⟨tblAfter ms [], ?_, ?_, ?_, ?_, ?_⟩
  · rw [hbatch, hwnil, correlate_wanted_nil]
  · exact tblAfter_get ms [] (.num 1) m1 hids hnd (hperm.mem_iff.mpr (by simp)) hid1
  · exact tblAfter_get ms [] (.num 2) m2 hids hnd (hperm.mem_iff.mpr (by simp)) hid2
  · exact tblAfter_get ms [] (.num 3) m3 hids hnd (hperm.mem_iff.mpr (by simp)) hid3
  · exact tblAfter_get ms [] (.num 4) m4 hids hnd (hperm.mem_iff.mpr (by simp)) hid4

theorem claim_C4_order_independence_witness :
    ∃ tbl,
      correlate 9
        (encodeAll [Json.obj [(idKey, .num 4)], .obj [(idKey, .num 3)],
          .obj [(idKey, .num 2)], .obj [(idKey, .num 1)]] ++ []) wanted0 [] =
        .ok (tbl, [], []) ∧
      tblGet (some (.num 1)) tbl = some (.obj [(idKey, .num 1)]) ∧
      tblGet (some (.num 2)) tbl = some (.obj [(idKey, .num 2)]) ∧
      tblGet (some (.num 3)) tbl = some (.obj [(idKey, .num 3)]) ∧
      tblGet (some (.num 4)) tbl = some (.obj [(idKey, .num 4)]) :=
  claim_C4_order_independence
    (.obj [(idKey, .num 1)]) (.obj [(idKey, .num 2)])
    (.obj [(idKey, .num 3)]) (.obj [(idKey, .num 4)])
    [(idKey, .num 1)] [(idKey, .num 2)] [(idKey, .num 3)] [(idKey, .num 4)]
    rfl rfl rfl rfl (by decide) (by decide) (by decide) (by decide)
    [Json.obj [(idKey, .num 4)], .obj [(idKey, .num 3)],
      .obj [(idKey, .num 2)], .obj [(idKey, .num 1)]]
    (by decide) 9 (by decide) []

/-- C5.  Partial timeout degrades gracefully: when the stream carries
responses for identifiers 1, 2 and 3 and then ends (never yielding one
for 4), the main pass runs out its deadline with table entries for 1, 2
and 3 and none for 4, and the print step emits the five lines in fixed
request order with the missing entries rendered as the literal `null`. -/
theorem claim_C5_partial_timeout (r1 r2 r3 : Json)
    (k1 k2 k3 : List (List Nat × Json))
    (h1 : r1 = .obj k1) (h2 : r2 = .obj k2) (h3 : r3 = .obj k3)
    (hid1 : ridOf r1 = some (.num 1)) (hid2 : ridOf r2 = some (.num 2))
    (hid3 : ridOf r3 = some (.num 3))
    (fuel1 fuel2 : Nat) (hfuel : 3 ≤ fuel1) :
    run_sequence fuel1 fuel2 (encodeAll [r1, r2, r3]) =
      .ok [renderLine (ascii "initialize") (some r1),
           renderLine (ascii "tools/list") (some r2),
           renderLine (ascii "tools/call(health_check)") (some r3),
           ascii "tools/call(query_memory) => null",
           ascii "shutdown => null"] ∧
    correlate fuel1 (encodeAll [r1, r2, r3]) wanted0 [] =
      .ok (tblAfter [r1, r2, r3] [], [Json.num 4], []) ∧
    tblGet (some (.num 4)) (tblAfter [r1, r2, r3] []) = none ∧
    tblGet (some (.num 1)) (tblAfter [r1, r2, r3] []) = some r1 ∧
    tblGet (some (.num 2)) (tblAfter [r1, r2, r3] []) = some r2 ∧
    tblGet (some (.num 3)) (tblAfter [r1, r2, r3] []) = some r3 := by
  have hobj : ∀ m ∈ [r1, r2, r3], ∃ kvs, m = Json.obj kvs := by
    intro m hm
    simp only [List.mem_cons, List.not_mem_nil, or_false] at hm
    rcases hm with rfl | rfl | rfl
    exacts [⟨k1, h1⟩, ⟨k2, h2⟩, ⟨k3, h3⟩]
  have hid : ∀ m ∈ [r1, r2, r3], ∃ j, ridOf m = some j ∧ j ∈ wanted0 := by
    intro m hm
    simp only [List.mem_cons, List.not_mem_nil, or_false] at hm
    rcases hm with rfl | rfl | rfl
    exacts [⟨.num 1, hid1, by decide⟩, ⟨.num 2, hid2, by decide⟩,
      ⟨.num 3, hid3, by decide⟩]
  have hids : ∀ m ∈ [r1, r2, r3], ∃ j, ridOf m = some j :=
    fun m hm => (hid m hm).imp (fun j hj => hj.1)
  have hnd : ([r1, r2, r3].filterMap ridOf).Nodup := by
    simp only [List.filterMap_cons, hid1, hid2, hid3, List.filterMap_nil]
    decide
  have hwa : wantedAfter [r1, r2, r3] wanted0 = [Json.num 4] := by
    simp only [wantedAfter, List.foldl_cons, List.foldl_nil, hid1, hid2, hid3]
    decide
  have hbatch := correlate_batch [r1, r2, r3] fuel1 wanted0 [] []
    (by simp; omega) hobj hid hnd
  rw [List.append_nil] at hbatch
  rw [hwa, correlate_eof] at hbatch
  have hg1 : tblGet (some (.num 1)) (tblAfter [r1, r2, r3] []) = some r1 :=
    tblAfter_get _ _ _ _ hids hnd (by simp) hid1
  have hg2 : tblGet (some (.num 2)) (tblAfter [r1, r2, r3] []) = some r2 :=
    tblAfter_get _ _ _ _ hids hnd (by simp) hid2
  have hg3 : tblGet (some (.num 3)) (tblAfter [r1, r2, r3] []) = some r3 :=
    tblAfter_get _ _ _ _ hids hnd (by simp) hid3
  have hg4 : tblGet (some (.num 4)) (tblAfter [r1, r2, r3] []) = none := by
    rw [tblAfter_get_notin [r1, r2, r3] [] (.num 4) (by
      intro m hm
      simp only [List.mem_cons, List.not_mem_nil, or_false] at hm
      rcases hm with rfl | rfl | rfl
      exacts [⟨.num 1, hid1, by decide⟩, ⟨.num 2, hid2, by decide⟩,
        ⟨.num 3, hid3, by decide⟩])]
    rfl
  refine ⟨?_, hbatch, hg4, hg1, hg2, hg3⟩
  unfold run_sequence
  rw [hbatch]
  simp only [shutdownLoop_eof, hg1, hg2, hg3, hg4]
  rw [show renderLine (ascii "tools/call(query_memory)") none =
    ascii "tools/call(query_memory) => null" from by decide]
  rw [show renderLine (ascii "shutdown") none = ascii "shutdown => null" from by decide]

theorem claim_C5_partial_timeout_witness :
    3 ≤ 7 ∧
    run_sequence 7 2 (encodeAll [Json.obj [(idKey, .num 1)], .obj [(idKey, .num 2)],
        .obj [(idKey, .num 3)]]) =
      .ok [renderLine (ascii "initialize") (some (.obj [(idKey, .num 1)])),
           renderLine (ascii "tools/list") (some (.obj [(idKey, .num 2)])),
           renderLine (ascii "tools/call(health_check)") (some (.obj [(idKey, .num 3)])),
           ascii "tools/call(query_memory) => null",
           ascii "shutdown => null"] :=
  ⟨by decide,
   ((claim_C5_partial_timeout (.obj [(idKey, .num 1)]) (.obj [(idKey, .num 2)])
      (.obj [(idKey, .num 3)]) [(idKey, .num 1)] [(idKey, .num 2)] [(idKey, .num 3)]
      rfl rfl rfl (by decide) (by decide) (by decide) 7 2 (by decide)).1)⟩

/-- The value an override list assigns to a key (the last write wins, as
for successive Python dict assignments). -/
def lastAssoc (ov : List (String × String)) (k : String) : Option String :=
  (ov.reverse.find? (fun p => p.1 == k)).map (fun p => p.2)

/-- The harness environment overlaid with every override key — the
`os.environ.copy()` followed by `env_vars.update(...)` of the source,
before the `RUST_LOG` defaulting. -/
def envOverlay (base : String → Option String) (ov : List (String × String))
    (k : String) : Option String :=
  match lastAssoc ov k with
  | some v => some v
  | none => base k

theorem foldl_update_eq (ov : List (String × String)) :
    ∀ (base : String → Option String) (k : String),
    ov.foldl (fun acc kv => fun q => if q = kv.1 then some kv.2 else acc q) base k =
      envOverlay base ov k := by
  induction ov with
  | nil => intro base k; simp [envOverlay, lastAssoc]
  | cons kv ov ih =>
    intro base k
    simp only [List.foldl_cons]
    rw [ih]
    simp only [envOverlay, lastAssoc, List.reverse_cons, List.find?_append]
    cases hfind : (ov.reverse.find? (fun p => p.1 == k)) with
    | some p => simp [hfind]
    | none =>
      by_cases hk : kv.1 = k
      · have hb : (kv.1 == k) = true := by simp [hk]
        simp [List.find?_cons, hb, hk]
      · have hb : (kv.1 == k) = false := by simp [hk]
        simp [List.find?_cons, hb, Ne.symm hk]

/-- C8.  Child environment contract of `spawn_server`: (a) away from
`RUST_LOG`, the child environment is exactly the harness environment
overlaid with every override key (last write wins); (b) a `RUST_LOG`
value present after the overlay — whether from the overrides or
inherited — is never replaced; (c) `RUST_LOG` is set to the default
`"off"` exactly when it is absent after the overlay. -/
theorem claim_C8_spawn_env (base : String → Option String)
    (ov : List (String × String)) :
    (∀ k, k ≠ "RUST_LOG" → spawn_env base ov k = envOverlay base ov k) ∧
    (∀ v, envOverlay base ov "RUST_LOG" = some v →
      spawn_env base ov "RUST_LOG" = some v) ∧
    (envOverlay base ov "RUST_LOG" = none →
      spawn_env base ov "RUST_LOG" = some "off") := by
  refine ⟨?_, ?_, ?_⟩
  · intro k hk
    unfold spawn_env
    rw [if_neg hk, foldl_update_eq]
  · intro v hv
    unfold spawn_env
    rw [if_pos rfl, foldl_update_eq, hv]
    rfl
  · intro hv
    unfold spawn_env
    rw [if_pos rfl, foldl_update_eq, hv]
    rfl

theorem claim_C8_spawn_env_witness :
    (("PATH" : String) ≠ "RUST_LOG" ∧
      spawn_env (fun k => if k = "PATH" then some "/bin" else none)
        [("PATH", "/usr/bin"), ("RUST_LOG", "debug")] "PATH" =
      envOverlay (fun k => if k = "PATH" then some "/bin" else none)
        [("PATH", "/usr/bin"), ("RUST_LOG", "debug")] "PATH") ∧
    (envOverlay (fun k => if k = "PATH" then some "/bin" else none)
        [("PATH", "/usr/bin"), ("RUST_LOG", "debug")] "RUST_LOG" = some "debug" ∧
      spawn_env (fun k => if k = "PATH" then some "/bin" else none)
        [("PATH", "/usr/bin"), ("RUST_LOG", "debug")] "RUST_LOG" = some "debug") ∧
    (envOverlay (fun _ => none) [] "RUST_LOG" = none ∧
      spawn_env (fun _ => none) [] "RUST_LOG" = some "off") := by
  refine ⟨⟨?_, ?_⟩, ⟨?_, ?_⟩, ⟨?_, ?_⟩⟩
  · decide
  · exact (claim_C8_spawn_env _ _).1 "PATH" (by decide)
  · simp [envOverlay, lastAssoc, List.find?]
  · exact (claim_C8_spawn_env _ _).2.1 "debug" (by simp [envOverlay, lastAssoc, List.find?])
  · simp [envOverlay, lastAssoc]
  · exact (claim_C8_spawn_env _ _).2.2 (by simp [envOverlay, lastAssoc])
